import Mathlib

/-!
Verification development for the award-archive ingest-merge core.

Shallow embedding of:
- `src/award_archive/storage/hashing.py` (content hashing, metadata stamping)
- `src/award_archive/storage/delta.py` (write widening, merge engine, retry loop)
- `src/award_archive/pipeline/ingest.py` (fetch retry wrapper, pagination loop)
- `src/award_archive/api/iprefer.py` (retry policy of the iPrefer client)

Scalar cell values are modelled by `Value` (string, integer, boolean, null),
rows by association lists from column name to `Value` (a pandas row / Python
dict preserves insertion order, which an association list mirrors), and a
DataFrame by a list of rows.
-/

set_option maxRecDepth 10000

/-- Scalar value of one DataFrame cell: string, number, boolean, or null. -/
inductive Value where
  | null : Value
  | bool (b : Bool) : Value
  | int (n : Int) : Value
  | str (s : String) : Value
deriving DecidableEq

/-- A row: mapping from column name to scalar value, in insertion order. -/
abbrev Record := List (String × Value)

/-- Look a column up in a row; absent columns read as null (pandas reads a
missing cell of a uniform frame as NaN/None). -/
def getCol (r : Record) (k : String) : Value :=
  match r.find? (fun kv => kv.1 == k) with
  | some kv => kv.2
  | none => .null

/-- Pandas column assignment `df[k] = v` on one row: overwrite the column in
place when present, otherwise append it as the last column. -/
def setColumn (r : Record) (k : String) (v : Value) : Record :=
  if r.any (fun kv => kv.1 == k) then r.map (fun kv => if kv.1 == k then (k, v) else kv)
  else r ++ [(k, v)]

/-! ### JSON serialization (Python `json.dumps` with `sort_keys=True`) -/

/-- Hex digit character for a nibble, lowercase as in Python. -/
def hexDigitChar (n : Nat) : Char := if n < 10 then Char.ofNat (48 + n) else Char.ofNat (87 + n)

/-- Fixed-width big-endian hex rendering of a number, `n` digits. -/
def padHex : Nat → Nat → List Char
  | 0, _ => []
  | n + 1, x => padHex n (x / 16) ++ [hexDigitChar (x % 16)]

/-- Escape one character the way `json.dumps` (default `ensure_ascii=True`)
does: shorthand escapes, `\uXXXX` for other non-printable or non-ASCII
characters (surrogate pairs beyond the BMP), printable ASCII verbatim. -/
def jsonEscapeChar (c : Char) : List Char :=
  if c = '"' then ['\\', '"']
  else if c = '\\' then ['\\', '\\']
  else if c.toNat = 8 then ['\\', 'b']
  else if c.toNat = 9 then ['\\', 't']
  else if c.toNat = 10 then ['\\', 'n']
  else if c.toNat = 12 then ['\\', 'f']
  else if c.toNat = 13 then ['\\', 'r']
  else if 32 ≤ c.toNat ∧ c.toNat ≤ 126 then [c]
  else if c.toNat < 65536 then '\\' :: 'u' :: padHex 4 c.toNat
  else
    ('\\' :: 'u' :: padHex 4 (55296 + (c.toNat - 65536) / 1024)) ++
      ('\\' :: 'u' :: padHex 4 (56320 + (c.toNat - 65536) % 1024))

/-- JSON string literal: quoted, characters escaped. -/
def jsonEncodeString (s : String) : String :=
  String.mk ('"' :: s.data.foldr (fun c acc => jsonEscapeChar c ++ acc) ['"'])

/-- JSON rendering of one scalar (`json.dumps` on None/bool/int/str). -/
def jsonEncodeValue : Value → String
  | .null => "null"
  | .bool b => if b then "true" else "false"
  | .int n => toString n
  | .str s => jsonEncodeString s

/-- JSON object literal over the given entries in the given order, with the
default `json.dumps` separators. -/
def jsonDumpsEntries (l : Record) : String :=
  "\x7b" ++ String.intercalate ", "
      (l.map (fun kv => jsonEncodeString kv.1 ++ ": " ++ jsonEncodeValue kv.2)) ++ "\x7d"

/-- UTF-8 bytes of one character (Python `str.encode()`). -/
def utf8Char (c : Char) : List Nat :=
  let n := c.toNat
  if n < 128 then [n]
  else if n < 2048 then [192 + n / 64, 128 + n % 64]
  else if n < 65536 then [224 + n / 4096, 128 + (n / 64) % 64, 128 + n % 64]
  else [240 + n / 262144, 128 + (n / 4096) % 64, 128 + (n / 64) % 64, 128 + n % 64]

/-- UTF-8 byte sequence of a string. -/
def strUtf8 (s : String) : List Nat := s.data.foldr (fun c acc => utf8Char c ++ acc) []

/-! ### SHA-256 (`hashlib.sha256`), over `Nat` with explicit mod-2^32 -/

/-- Truncate to a 32-bit word. -/
def w32 (x : Nat) : Nat := x % 4294967296

/-- Right rotation of a 32-bit word. -/
def rotr32 (n x : Nat) : Nat := w32 ((x >>> n) ||| (x <<< (32 - n)))

/-- SHA-256 choice function. -/
def shaCh (x y z : Nat) : Nat := (x &&& y) ^^^ ((x ^^^ 4294967295) &&& z)

/-- SHA-256 majority function. -/
def shaMaj (x y z : Nat) : Nat := (x &&& y) ^^^ (x &&& z) ^^^ (y &&& z)

/-- SHA-256 big sigma 0. -/
def bigS0 (x : Nat) : Nat := rotr32 2 x ^^^ rotr32 13 x ^^^ rotr32 22 x

/-- SHA-256 big sigma 1. -/
def bigS1 (x : Nat) : Nat := rotr32 6 x ^^^ rotr32 11 x ^^^ rotr32 25 x

/-- SHA-256 small sigma 0. -/
def smallS0 (x : Nat) : Nat := rotr32 7 x ^^^ rotr32 18 x ^^^ (x >>> 3)

/-- SHA-256 small sigma 1. -/
def smallS1 (x : Nat) : Nat := rotr32 17 x ^^^ rotr32 19 x ^^^ (x >>> 10)

/-- Big-endian byte rendering of a number, fixed width. -/
def beBytes : Nat → Nat → List Nat
  | 0, _ => []
  | n + 1, x => beBytes n (x / 256) ++ [x % 256]

/-- SHA-256 message padding: 0x80, zeros to 56 mod 64, 8-byte bit length. -/
def shaPad (msg : List Nat) : List Nat :=
  msg ++ [128] ++ List.replicate ((119 - msg.length % 64) % 64) 0 ++ beBytes 8 (8 * msg.length)

/-- Group bytes into big-endian 32-bit words. -/
def bytesToWords : List Nat → List Nat
  | a :: b :: c :: d :: rest => (((a * 256 + b) * 256 + c) * 256 + d) :: bytesToWords rest
  | _ => []

/-- Extend the 16-word message schedule by `fuel` further words. -/
def extendW : Nat → List Nat → List Nat
  | 0, w => w
  | f + 1, w =>
    let i := w.length
    extendW f (w ++ [w32 (smallS1 (w.getD (i - 2) 0) + w.getD (i - 7) 0 +
      smallS0 (w.getD (i - 15) 0) + w.getD (i - 16) 0)])

/-- SHA-256 working state: eight 32-bit words. -/
structure Sha8 where
  a : Nat
  b : Nat
  c : Nat
  d : Nat
  e : Nat
  f : Nat
  g : Nat
  h : Nat

/-- The 64 SHA-256 round constants. -/
def shaK : List Nat :=
  [1116352408, 1899447441, 3049323471, 3921009573, 961987163,
   1508970993, 2453635748, 2870763221, 3624381080, 310598401,
   607225278, 1426881987, 1925078388, 2162078206, 2614888103,
   3248222580, 3835390401, 4022224774, 264347078, 604807628,
   770255983, 1249150122, 1555081692, 1996064986, 2554220882,
   2821834349, 2952996808, 3210313671, 3336571891, 3584528711,
   113926993, 338241895, 666307205, 773529912, 1294757372,
   1396182291, 1695183700, 1986661051, 2177026350, 2456956037,
   2730485921, 2820302411, 3259730800, 3345764771, 3516065817,
   3600352804, 4094571909, 275423344, 430227734, 506948616,
   659060556, 883997877, 958139571, 1322822218, 1537002063,
   1747873779, 1955562222, 2024104815, 2227730452, 2361852424,
   2428436474, 2756734187, 3204031479, 3329325298]

/-- One SHA-256 compression round. -/
def shaRound (st : Sha8) (kw : Nat × Nat) : Sha8 :=
  let t1 := w32 (st.h + bigS1 st.e + shaCh st.e st.f st.g + kw.1 + kw.2)
  let t2 := w32 (bigS0 st.a + shaMaj st.a st.b st.c)
  ⟨w32 (t1 + t2), st.a, st.b, st.c, w32 (st.d + t1), st.e, st.f, st.g⟩

/-- Compress one 64-byte block into the running state. -/
def shaCompressBlock (st : Sha8) (block : List Nat) : Sha8 :=
  let w := extendW 48 (bytesToWords block)
  let fin := (shaK.zip w).foldl shaRound st
  ⟨w32 (st.a + fin.a), w32 (st.b + fin.b), w32 (st.c + fin.c), w32 (st.d + fin.d),
   w32 (st.e + fin.e), w32 (st.f + fin.f), w32 (st.g + fin.g), w32 (st.h + fin.h)⟩

/-- Split a byte list into 64-byte chunks. -/
def shaChunks (bs : List Nat) : List (List Nat) :=
  match bs with
  | [] => []
  | b :: rest => (b :: rest).take 64 :: shaChunks (rest.drop 63)
termination_by bs.length
decreasing_by simp; omega

/-- SHA-256 of a byte sequence, as the final eight-word state. -/
def sha256Words (msg : List Nat) : Sha8 :=
  (shaChunks (shaPad msg)).foldl shaCompressBlock
    ⟨1779033703, 3144134277, 1013904242, 2773480762,
     1359893119, 2600822924, 528734635, 1541459225⟩

/-- SHA-256 hex digest characters (64 lowercase hex chars). -/
def sha256HexChars (msg : List Nat) : List Char :=
  let s := sha256Words msg
  padHex 8 s.a ++ padHex 8 s.b ++ padHex 8 s.c ++ padHex 8 s.d ++
    padHex 8 s.e ++ padHex 8 s.f ++ padHex 8 s.g ++ padHex 8 s.h

/-! ### Canonical row serialization and content hashing
(`src/award_archive/storage/hashing.py`) -/

/-- Constructor rank of a value, used to totalize Python's tuple comparison
in `sorted(row.items())` (Python would raise on cross-type comparison; the
comparison is only exercised between entries with equal keys, which a
well-formed row does not have). -/
def Value.rank : Value → Nat
  | .null => 0
  | .bool _ => 1
  | .int _ => 2
  | .str _ => 3

/-- Total comparison on scalar values: by rank (null, bool, int, str), then
by the component order within one constructor. -/
def Value.leb : Value → Value → Bool
  | .null, _ => true
  | _, .null => false
  | .bool x, .bool y => decide (x ≤ y)
  | .bool _, _ => true
  | _, .bool _ => false
  | .int x, .int y => decide (x ≤ y)
  | .int _, _ => true
  | _, .int _ => false
  | .str x, .str y => decide (x ≤ y)

/-- Lexicographic order on `(key, value)` entries, modelling the tuple order
used by Python's `sorted(row.items())`. -/
def pairLE (p q : String × Value) : Prop :=
  p.1 < q.1 ∨ (p.1 = q.1 ∧ p.2.leb q.2 = true)

instance : DecidableRel pairLE := fun p q => by
  unfold pairLE; exact inferInstance

theorem Value.leb_refl (a : Value) : a.leb a = true := by
  cases a <;> simp [Value.leb]

theorem Value.leb_total (a b : Value) : a.leb b = true ∨ b.leb a = true := by
  cases a <;> cases b <;> simp [Value.leb] <;> exact le_total _ _

theorem Value.leb_antisymm {a b : Value} (h₁ : a.leb b = true) (h₂ : b.leb a = true) :
    a = b := by
  cases a <;> cases b <;> simp_all [Value.leb] <;>
    first
      | exact le_antisymm h₁ h₂
      | exact String.ext (le_antisymm h₁ h₂)

theorem Value.leb_trans {a b c : Value} (h₁ : a.leb b = true) (h₂ : b.leb c = true) :
    a.leb c = true := by
  cases a <;> cases b <;> cases c <;> simp_all [Value.leb] <;> exact le_trans h₁ h₂

instance : IsTotal (String × Value) pairLE := by
  constructor
  intro p q
  rcases lt_trichotomy p.1 q.1 with h | h | h
  · exact .inl (.inl h)
  · rcases Value.leb_total p.2 q.2 with hv | hv
    · exact .inl (.inr ⟨h, hv⟩)
    · exact .inr (.inr ⟨h.symm, hv⟩)
  · exact .inr (.inl h)

instance : IsTrans (String × Value) pairLE := by
  constructor
  intro p q s hpq hqs
  rcases hpq with h | ⟨he, hv⟩ <;> rcases hqs with h' | ⟨he', hv'⟩
  · exact .inl (h.trans h')
  · exact .inl (he' ▸ h)
  · exact .inl (he ▸ h')
  · exact .inr ⟨he.trans he', Value.leb_trans hv hv'⟩

instance : IsAntisymm (String × Value) pairLE := by
  constructor
  intro p q hpq hqp
  rcases hpq with h | ⟨he, hv⟩ <;> rcases hqp with h' | ⟨he', hv'⟩
  · exact absurd h' (lt_asymm h)
  · exact absurd h (he' ▸ lt_irrefl _)
  · exact absurd h' (he ▸ lt_irrefl _)
  · exact Prod.ext he (Value.leb_antisymm hv hv')

/-- Python dict construction over an already-sorted entry list: among runs of
entries that share a key, the last insertion wins. -/
def dedupAdj : Record → Record
  | [] => []
  | [p] => [p]
  | p :: q :: rest => if p.1 = q.1 then dedupAdj (q :: rest) else p :: dedupAdj (q :: rest)

/-- The canonical entry list hashed by `compute_row_hash`: entries sorted by
Python tuple order, the excluded columns dropped, duplicate keys collapsed
(dict semantics), exactly as in
`{k: v for k, v in sorted(row.items()) if k not in exclude_cols}` followed by
`json.dumps(..., sort_keys=True)`. -/
def canonicalEntries (row : Record) (exclude_cols : List String) : Record :=
  dedupAdj ((List.insertionSort pairLE row).filter (fun kv => !(exclude_cols.contains kv.1)))

/-- `compute_row_hash` from `storage/hashing.py`: canonical JSON of the
non-excluded columns, SHA-256, first 16 hex characters. -/
def compute_row_hash (row : Record) (exclude_cols : List String) : String :=
  String.mk ((sha256HexChars (strUtf8 (jsonDumpsEntries (canonicalEntries row exclude_cols)))).take 16)

/-- `add_metadata_columns` from `storage/hashing.py`: stamp one batch with a
single `ingestion_timestamp` value `now` (computed once per call by
`datetime.now(UTC).isoformat()`), then a per-row `content_hash` over the
timestamped row with the metadata columns excluded. -/
def add_metadata_columns (df : List Record) (hash_exclude_cols : List String) (now : String) :
    List Record :=
  let df1 := df.map (fun r => setColumn r "ingestion_timestamp" (.str now))
  let excl := hash_exclude_cols ++ ["ingestion_timestamp", "content_hash"]
  df1.map (fun r => setColumn r "content_hash" (.str (compute_row_hash r excl)))

/-! ### Delta storage layer (`src/award_archive/storage/delta.py`) -/

/-- Null test on a cell (pandas `isna` on our scalar model). -/
def isNullV : Value → Bool
  | .null => true
  | _ => false

/-- Python `str()` of one cell value, as applied elementwise by
`Series.astype(str)`. -/
def pyToString : Value → String
  | .null => "None"
  | .bool b => if b then "True" else "False"
  | .int n => toString n
  | .str s => s

/-- True when every row of the frame is null in column `k`
(`df[col].isna().all()`). -/
def allNullCol (df : List Record) (k : String) : Bool :=
  df.all (fun r => isNullV (getCol r k))

/-- The defensive conversion in `_write`: every column whose values are all
null is converted to strings (`df[col] = df[col].astype(str)`) so the
storage layer's type inference cannot fail on a Null-typed column; other
columns are untouched. -/
def widenDf (df : List Record) : List Record :=
  df.map (fun r => r.map (fun kv =>
    if allNullCol df kv.1 then (kv.1, .str (pyToString kv.2)) else kv))

/-- The action of `widenDf` on one row (the frame argument fixes which
columns are all-null). -/
def widenRow (df : List Record) (r : Record) : Record :=
  r.map (fun kv => if allNullCol df kv.1 then (kv.1, .str (pyToString kv.2)) else kv)

/-- Write mode accepted by `write_deltalake` in this codebase. -/
inductive WriteMode
  | append
  | overwrite

/-- State of one Delta table: its rows and the partition columns it was
created with. -/
structure TableData where
  rows : List Record
  partitionBy : Option (List String)

/-- `_write` from `storage/delta.py` composed with the external
`write_deltalake` collaborator (modelled from the spec's Table Store
contract: `write(rows, mode, partitionColumns)` appends or replaces the
table content): the frame is widened, then stored under the given mode. -/
def _write (df : List Record) (st : Option TableData) (mode : WriteMode)
    (partition_by : Option (List String)) : TableData :=
  let dfw := widenDf df
  match mode, st with
  | .append, some t => ⟨t.rows ++ dfw, t.partitionBy⟩
  | .append, none => ⟨dfw, partition_by⟩
  | .overwrite, _ => ⟨dfw, partition_by⟩

/-- Result-summary dictionary returned by the storage functions. -/
abbrev Stats := List (String × Value)

/-- Python `dict.update`: existing keys are overwritten in place, new keys
are appended in order. -/
def dictUpdate (d u : Stats) : Stats :=
  d.map (fun kv =>
    match u.lookup kv.1 with
    | some v => (kv.1, v)
    | none => kv) ++
  u.filter (fun kv => !(d.any (fun kv2 => kv2.1 == kv.1)))

/-- The merge-match predicate built by `_execute_merge`
(`" AND ".join(f"target.{k} = source.{k}" for k in merge_keys)`): equality on
every merge-key column. -/
def rowMatches (merge_keys : List String) (t s : Record) : Bool :=
  merge_keys.all (fun k => getCol t k == getCol s k)

/-- The matched-update predicate of `_execute_merge`
(`target.content_hash != source.content_hash`). -/
def hashDiffers (t s : Record) : Bool :=
  !(getCol t "content_hash" == getCol s "content_hash")

/-- Drop duplicate names, keeping first appearances (`seen` accumulates the
names already emitted). -/
def dedupKeysAux (seen : List String) : List String → List String
  | [] => []
  | k :: rest =>
    if seen.contains k then dedupKeysAux seen rest
    else k :: dedupKeysAux (k :: seen) rest

/-- Column list of a frame (`df.columns`): every column name, in first
appearance order, without duplicates. -/
def dfColumns (df : List Record) : List String :=
  dedupKeysAux [] (df.foldr (fun r acc => r.map Prod.fst ++ acc) [])

/-- Apply the update map `{col: source.col for col in df.columns}` of
`when_matched_update` to one matched target row. -/
def applyUpdates (t s : Record) (cols : List String) : Record :=
  cols.foldl (fun acc c => setColumn acc c (getCol s c)) t

/-- Fate of one existing row under the merge: the first source row matching
it on the merge keys updates it when the content hashes differ, otherwise it
is left untouched. -/
def mergeRow (merge_keys updCols : List String) (src : List Record) (t : Record) : Record :=
  match src.find? (fun s => rowMatches merge_keys t s) with
  | some s => if hashDiffers t s then applyUpdates t s updCols else t
  | none => t

/-- Outcome of one conditional upsert: resulting rows plus the row counts the
Table Store reports. -/
structure MergeOutcome where
  rows : List Record
  num_updated : Nat
  num_inserted : Nat

/-- Modelled from the spec: the external Table Store's atomic conditional
upsert (the `deltalake` `TableMerger` built in `_execute_merge`, whose
internals are not part of this repository) — each incoming row is matched
against existing rows by equality on all merge-key columns; a matched
existing row is overwritten with the incoming row's columns only if the
stored content hash differs; unmatched incoming rows are inserted. -/
def deltaMergeExec (target src : List Record) (merge_keys updCols : List String) :
    MergeOutcome :=
  { rows := target.map (mergeRow merge_keys updCols src) ++
      src.filter (fun s => !(target.any (fun t => rowMatches merge_keys t s)))
    num_updated := (target.filter (fun t =>
      match src.find? (fun s => rowMatches merge_keys t s) with
      | some s => hashDiffers t s
      | none => false)).length
    num_inserted := (src.filter (fun s => !(target.any (fun t => rowMatches merge_keys t s)))).length }

/-- `_execute_merge` from `storage/delta.py`: a missing table is created by
writing the batch as its initial content (partitioned as requested) and
reported as `rows_inserted`/`table_created`; an existing table receives the
conditional upsert keyed on the merge keys, updating all source columns and
reporting only `merge_completed`/`table_created` (the row metrics returned
by the Table Store's `execute()` are discarded). -/
def _execute_merge (df : List Record) (st : Option TableData) (merge_keys : List String)
    (partition_by : Option (List String)) : Option TableData × Stats :=
  match st with
  | none =>
    (some (_write df none .overwrite partition_by),
     [("rows_inserted", .int df.length), ("table_created", .bool true)])
  | some t =>
    let out := deltaMergeExec t.rows df merge_keys (dfColumns df)
    (some ⟨out.rows, t.partitionBy⟩,
     [("merge_completed", .bool true), ("table_created", .bool false)])

/-- Retry settings for concurrent write conflicts (`storage/delta.py`). -/
def MAX_MERGE_RETRIES : Nat := 5

/-- Base delay between merge retries, in seconds. -/
def RETRY_DELAY_SECONDS : Nat := 2

/-- Lowercase a string (`str.lower()` on the error message). -/
def strLower (s : String) : String := String.mk (s.data.map Char.toLower)

/-- Substring test over character lists. -/
def hasInfixChars (hay pat : List Char) : Bool :=
  pat.isPrefixOf hay ||
    match hay with
    | [] => false
    | _ :: t => hasInfixChars t pat

/-- Python `pat in s` on strings. -/
def strContainsSub (s pat : String) : Bool := hasInfixChars s.data pat.data

/-- Conflict classification in `_merge_to_delta`:
`"concurrent" in error_msg or "conflict" in error_msg` on the lowercased
message. -/
def isConflictError (msg : String) : Bool :=
  strContainsSub (strLower msg) "concurrent" || strContainsSub (strLower msg) "conflict"

/-- The retry loop body of `_merge_to_delta`: attempt numbers count up from
1; a conflict-class error below the attempt cap sleeps `attempt × base` and
retries, anything else re-raises; the fuel-exhausted case is the
`RuntimeError` after the loop, unreachable from the real entry point. The
returned list is the sequence of sleep delays. -/
def mergeRetryGo {α : Type} (outcome : Nat → Except String α) :
    Nat → Nat → List Nat × Except String α
  | _, 0 => ([], .error "Max retries exceeded for merge operation")
  | attempt, rem + 1 =>
    match outcome attempt with
    | .ok v => ([], .ok v)
    | .error e =>
      if isConflictError e && decide (attempt < MAX_MERGE_RETRIES) then
        let rest := mergeRetryGo outcome (attempt + 1) rem
        (RETRY_DELAY_SECONDS * attempt :: rest.1, rest.2)
      else ([], .error e)

/-- `_merge_to_delta` from `storage/delta.py`, abstracted over the outcome
each merge attempt would produce (conflicts arise from concurrent writers,
outside this model): runs attempts `1..MAX_MERGE_RETRIES`. -/
def _merge_to_delta {α : Type} (outcome : Nat → Except String α) :
    List Nat × Except String α :=
  mergeRetryGo outcome 1 MAX_MERGE_RETRIES

/-- Save mode of `save_to_delta`. -/
inductive SaveMode
  | append
  | overwrite
  | merge

/-- Mode name as recorded in the stats dictionary. -/
def modeName : SaveMode → String
  | .append => "append"
  | .overwrite => "overwrite"
  | .merge => "merge"

/-- `save_to_delta` from `storage/delta.py`: optionally stamp metadata, build
the base stats dictionary, then either write (append/overwrite) or merge.
`now` stands for the single `datetime.now(UTC).isoformat()` reading of the
call. The merge branch is shown conflict-free (its `_merge_to_delta` retry
wrapper simply returns the first `_execute_merge` outcome when no concurrent
writer interferes; the retry wrapper itself is `_merge_to_delta` above). -/
def save_to_delta (df : List Record) (st : Option TableData) (mode : SaveMode)
    (merge_keys : List String) (add_metadata : Bool) (partition_by : Option (List String))
    (now : String) : Option TableData × Stats :=
  let dfm := if add_metadata then add_metadata_columns df [] now else df
  let stats : Stats :=
    [("input_rows", .int dfm.length), ("mode", .str (modeName mode)), ("timestamp", .str now)]
  match mode with
  | .merge =>
    let res := _execute_merge dfm st merge_keys partition_by
    (res.1, dictUpdate stats res.2)
  | .append =>
    (some (_write dfm st .append partition_by), stats ++ [("rows_written", .int dfm.length)])
  | .overwrite =>
    (some (_write dfm st .overwrite partition_by), stats ++ [("rows_written", .int dfm.length)])

/-! ### Fetch retry policy (`pipeline/ingest.py`, `api/iprefer.py`) -/

/-- Failure classes a fetch attempt can raise. In `httpx`,
`HTTPStatusError` (raised by `raise_for_status` for any 4xx or 5xx) and
`TimeoutException` are both subclasses of `HTTPError`, so the decorated
tuples `(httpx.HTTPError, httpx.HTTPStatusError, httpx.TimeoutException)`
and `(httpx.HTTPError, httpx.TimeoutException)` each denote exactly the
class of all httpx errors. `parseErr` stands for a malformed-response
failure (`ValueError` / pydantic validation), which is not an httpx error. -/
inductive FetchErr where
  | netErr : FetchErr
  | timeout : FetchErr
  | statusErr (code : Nat) : FetchErr
  | parseErr : FetchErr
deriving DecidableEq

/-- Membership in the exception tuple both decorators retry on: all httpx
errors, including every `HTTPStatusError` regardless of status code. -/
def isHttpxError : FetchErr → Bool
  | .netErr => true
  | .timeout => true
  | .statusErr _ => true
  | .parseErr => false

/-- Modelled from the spec: the retry loop of the external `backoff`
library's `on_exception` decorator, which the repository only configures.
Attempt `i` runs; success returns, an exception outside the retried classes
propagates at once, a retried exception propagates once `max_tries` is
reached and otherwise sleeps and retries. The returned list collects the
base wait value of each sleep (`backoff` scales each by its default random
full jitter, which this deterministic model leaves out). -/
def backoffGo {α : Type} (retryable : FetchErr → Bool) (wait : Nat → Nat)
    (attempts : Nat → Except FetchErr α) : Nat → Nat → List Nat × Except FetchErr α
  | _, 0 => ([], .error .parseErr)
  | attempt, rem + 1 =>
    match attempts attempt with
    | .ok v => ([], .ok v)
    | .error e =>
      if retryable e && decide (0 < rem) then
        let rest := backoffGo retryable wait attempts (attempt + 1) rem
        (wait attempt :: rest.1, rest.2)
      else ([], .error e)

/-- `backoff.on_exception(waitGen, classes, max_tries)` applied to a call
whose successive attempts behave as `attempts`. -/
def backoffOnException {α : Type} (retryable : FetchErr → Bool) (wait : Nat → Nat)
    (maxTries : Nat) (attempts : Nat → Except FetchErr α) : List Nat × Except FetchErr α :=
  backoffGo retryable wait attempts 1 maxTries

/-- `backoff.constant(interval=c)`: the same base wait before every retry. -/
def constantWait (c : Nat) : Nat → Nat := fun _ => c

/-- `backoff.expo` (base 2): base waits 1, 2, 4, ... on successive retries. -/
def expoWait : Nat → Nat := fun attempt => 2 ^ (attempt - 1)

/-- `_fetch_availability` from `pipeline/ingest.py`:
`@backoff.on_exception(backoff.constant, (httpx.HTTPError,
httpx.HTTPStatusError, httpx.TimeoutException), max_tries=3, interval=30)`
around `client.get_bulk_availability`. -/
def _fetch_availability {α : Type} (attempts : Nat → Except FetchErr α) :
    List Nat × Except FetchErr α :=
  backoffOnException isHttpxError (constantWait 30) 3 attempts

/-- `fetch_hotel_links` from `api/iprefer.py`:
`@backoff.on_exception(backoff.expo, (httpx.HTTPError,
httpx.TimeoutException), max_tries=5)` around the directory request. -/
def fetch_hotel_links {α : Type} (attempts : Nat → Except FetchErr α) :
    List Nat × Except FetchErr α :=
  backoffOnException isHttpxError expoWait 5 attempts

/-! ### Pagination loop (`ingest_availability`, `pipeline/ingest.py`) -/

/-- One upstream page as the loop sees it: the flattened records of
`response.data` and the `hasMore` flag. -/
structure PageResponse where
  rows : List Record
  hasMore : Bool

/-- The `while` loop of `ingest_availability`, fueled. `page` is the number
of completed iterations (the Python counter before its `page += 1`), so
iteration `k` fetches at skip `start_skip + (k - 1) * page_size`. The first
component of the result collects, per fetch performed, the skip offset used
and whether that page was merged; the second is the table state. The fuel
case stands for a still-running loop and is irrelevant whenever the loop
provably stops within the fuel. -/
def ingestGo (api : Nat → PageResponse) (maxPages : Option Nat) (pageSize startSkip : Nat)
    (now : Nat → String) : Nat → Nat → Option TableData → List (Nat × Bool) × Option TableData
  | 0, _, st => ([], st)
  | fuel + 1, page, st =>
    if (maxPages.all (fun m => decide (page < m))) then
      let skip := startSkip + page * pageSize
      let resp := api skip
      if resp.rows.isEmpty then ([(skip, false)], st)
      else
        let st1 := (save_to_delta resp.rows st .merge ["RouteID", "UpdatedAt"] true
          (some ["Source", "Date"]) (now (page + 1))).1
        if resp.hasMore then
          let rest := ingestGo api maxPages pageSize startSkip now fuel (page + 1) st1
          ((skip, true) :: rest.1, rest.2)
        else ([(skip, true)], st1)
    else ([], st)

/-- `ingest_availability` pagination core: start at page 0 with the caller's
starting skip against table state `st`; `now k` is the stamping time of page
`k`'s merge. -/
def ingest_availability (api : Nat → PageResponse) (maxPages : Option Nat)
    (pageSize startSkip : Nat) (now : Nat → String) (st : Option TableData) (fuel : Nat) :
    List (Nat × Bool) × Option TableData :=
  ingestGo api maxPages pageSize startSkip now fuel 0 st

/-! ### Basic lemmas on rows and columns -/

theorem getCol_nil (k : String) : getCol [] k = .null := rfl

theorem getCol_cons_pos (x : String × Value) (l : Record) (k : String)
    (h : (x.1 == k) = true) : getCol (x :: l) k = x.2 := by
  simp [getCol, List.find?_cons_of_pos, h]

theorem getCol_cons_neg (x : String × Value) (l : Record) (k : String)
    (h : (x.1 == k) = false) : getCol (x :: l) k = getCol l k := by
  unfold getCol
  rw [List.find?_cons_of_neg]
  simp [h]

theorem getCol_append_left (l₁ l₂ : Record) (k : String)
    (h : l₁.find? (fun kv => kv.1 == k) = none) :
    getCol (l₁ ++ l₂) k = getCol l₂ k := by
  unfold getCol
  rw [List.find?_append, h]
  rfl

theorem getCol_setColumn_self (r : Record) (k : String) (v : Value) :
    getCol (setColumn r k v) k = v := by
  unfold setColumn
  by_cases hany : r.any (fun kv => kv.1 == k) = true
  · rw [if_pos hany]
    induction r with
    | nil => simp at hany
    | cons kv t ih =>
      rw [List.map_cons]
      by_cases hk : (kv.1 == k) = true
      · rw [if_pos hk, getCol_cons_pos _ _ _ (by simp)]
      · rw [if_neg (by simp [hk]), getCol_cons_neg _ _ _ (by simpa using hk)]
        simp only [List.any_cons, hk, Bool.false_or] at hany
        exact ih hany
  · rw [if_neg hany]
    have hnone : r.find? (fun kv => kv.1 == k) = none := by
      rw [List.find?_eq_none]
      intro kv hkv
      simp only [Bool.not_eq_true]
      by_contra hc
      exact hany (List.any_eq_true.mpr ⟨kv, hkv, by simpa using hc⟩)
    rw [getCol_append_left _ _ _ hnone, getCol_cons_pos _ _ _ (by simp)]

theorem getCol_setColumn_ne (r : Record) (k k' : String) (v : Value) (h : k' ≠ k) :
    getCol (setColumn r k v) k' = getCol r k' := by
  have hkk : (k == k') = false := beq_eq_false_iff_ne.mpr fun e => h e.symm
  unfold setColumn
  by_cases hany : r.any (fun kv => kv.1 == k) = true
  · rw [if_pos hany]
    induction r with
    | nil => rfl
    | cons kv t ih =>
      rw [List.map_cons]
      by_cases hk : (kv.1 == k) = true
      · have hkv : (kv.1 == k') = false := by
          have : kv.1 = k := by simpa using hk
          rw [this]; exact hkk
        rw [if_pos hk, getCol_cons_neg _ _ _ hkk, getCol_cons_neg _ _ _ hkv]
        by_cases hany2 : t.any (fun kv => kv.1 == k) = true
        · exact ih hany2
        · have hmap : t.map (fun kv => if kv.1 == k then (k, v) else kv) = t := by
            have : t.map (fun kv => if kv.1 == k then (k, v) else kv) = t.map id := by
              apply List.map_congr_left
              intro a ha
              have hne : (a.1 == k) = false := by
                by_contra hc
                exact hany2 (List.any_eq_true.mpr ⟨a, ha, by simpa using hc⟩)
              simp [hne]
            rw [this, List.map_id]
          rw [hmap]
      · rw [if_neg (by simp [hk])]
        by_cases hkv : (kv.1 == k') = true
        · rw [getCol_cons_pos _ _ _ hkv, getCol_cons_pos _ _ _ hkv]
        · rw [getCol_cons_neg _ _ _ (by simpa using hkv),
            getCol_cons_neg _ _ _ (by simpa using hkv)]
          simp only [List.any_cons, hk, Bool.false_or] at hany
          exact ih hany
  · rw [if_neg hany]
    cases hfind : r.find? (fun kv => kv.1 == k') with
    | some kv =>
      unfold getCol
      rw [List.find?_append, hfind]
      rfl
    | none =>
      unfold getCol
      rw [List.find?_append, hfind]
      have hlast : List.find? (fun kv => kv.1 == k') [(k, v)] = none := by
        simp [List.find?_cons, hkk]
      rw [hlast]
      rfl

theorem getCol_applyUpdates (t s : Record) (cols : List String) (k : String) :
    getCol (applyUpdates t s cols) k =
      if cols.contains k then getCol s k else getCol t k := by
  induction cols generalizing t with
  | nil => simp [applyUpdates]
  | cons c cs ih =>
    have hstep : applyUpdates t s (c :: cs) = applyUpdates (setColumn t c (getCol s c)) s cs := by
      simp [applyUpdates]
    rw [hstep, ih]
    by_cases hmem : cs.contains k = true
    · have h2 : ((c :: cs).contains k) = true := by
        rw [List.contains_cons, hmem, Bool.or_true]
      rw [if_pos hmem, if_pos h2]
    · rw [if_neg hmem]
      by_cases hk : k = c
      · have h2 : ((c :: cs).contains k) = true := by
          rw [List.contains_cons]
          have hkc : (k == c) = true := by simp [hk]
          rw [hkc, Bool.true_or]
        rw [if_pos h2]
        subst hk
        rw [getCol_setColumn_self]
      · have hc1 : (k == c) = false := beq_eq_false_iff_ne.mpr hk
        have hc2 : cs.contains k = false := by simpa using hmem
        have h2 : ((c :: cs).contains k) = false := by
          rw [List.contains_cons, hc1, hc2]
          rfl
        rw [if_neg (by rw [h2]; simp), getCol_setColumn_ne _ _ _ _ hk]

/-! ### Canonicalization and stamping lemmas -/

theorem insertionSort_filter_comm (l : Record) (p : (String × Value) → Bool) :
    (List.insertionSort pairLE l).filter p = List.insertionSort pairLE (l.filter p) := by
  apply List.eq_of_perm_of_sorted (r := pairLE)
  · exact ((List.perm_insertionSort pairLE l).filter p).trans
      (List.perm_insertionSort pairLE (l.filter p)).symm
  · exact List.Pairwise.sublist (List.filter_sublist _) (List.sorted_insertionSort pairLE l)
  · exact List.sorted_insertionSort pairLE (l.filter p)

theorem filter_mapSet (t : Record) (k : String) (v : Value) (p : (String × Value) → Bool)
    (hp : ∀ kv : String × Value, kv.1 = k → p kv = false) :
    (t.map (fun kv => if kv.1 == k then (k, v) else kv)).filter p = t.filter p := by
  induction t with
  | nil => rfl
  | cons kv t ih =>
    rw [List.map_cons]
    by_cases hk : (kv.1 == k) = true
    · have hk' : kv.1 = k := by simpa using hk
      rw [if_pos hk, List.filter_cons, List.filter_cons, hp (k, v) rfl, hp kv hk', ih]
      simp
    · rw [if_neg (by simp [hk]), List.filter_cons, List.filter_cons, ih]

theorem filter_setColumn_excluded (r : Record) (k : String) (v : Value)
    (p : (String × Value) → Bool) (hp : ∀ kv : String × Value, kv.1 = k → p kv = false) :
    (setColumn r k v).filter p = r.filter p := by
  unfold setColumn
  by_cases hany : r.any (fun kv => kv.1 == k) = true
  · rw [if_pos hany, filter_mapSet _ _ _ _ hp]
  · rw [if_neg hany, List.filter_append, List.filter_cons, hp (k, v) rfl]
    simp

theorem canonicalEntries_setColumn (r : Record) (k : String) (v : Value)
    (excl : List String) (hk : excl.contains k = true) :
    canonicalEntries (setColumn r k v) excl = canonicalEntries r excl := by
  unfold canonicalEntries
  have hp : ∀ kv : String × Value, kv.1 = k → (!(excl.contains kv.1)) = false := by
    intro kv he
    rw [he, hk]
    rfl
  rw [insertionSort_filter_comm, filter_setColumn_excluded _ _ _ _ hp,
    ← insertionSort_filter_comm]

theorem compute_row_hash_setColumn (r : Record) (k : String) (v : Value)
    (excl : List String) (hk : excl.contains k = true) :
    compute_row_hash (setColumn r k v) excl = compute_row_hash r excl := by
  unfold compute_row_hash
  rw [canonicalEntries_setColumn _ _ _ _ hk]

theorem compute_row_hash_perm (r r' : Record) (excl : List String) (h : r.Perm r') :
    compute_row_hash r excl = compute_row_hash r' excl := by
  unfold compute_row_hash canonicalEntries
  have hsort : List.insertionSort pairLE r = List.insertionSort pairLE r' :=
    List.eq_of_perm_of_sorted
      ((List.perm_insertionSort pairLE r).trans (h.trans (List.perm_insertionSort pairLE r').symm))
      (List.sorted_insertionSort pairLE r) (List.sorted_insertionSort pairLE r')
  rw [hsort]

/-- The per-row action of `add_metadata_columns`: stamp the timestamp column,
then the content hash of the timestamped row with the metadata columns
excluded. -/
def stampRow (now : String) (r : Record) : Record :=
  setColumn (setColumn r "ingestion_timestamp" (.str now)) "content_hash"
    (.str (compute_row_hash (setColumn r "ingestion_timestamp" (.str now))
      ["ingestion_timestamp", "content_hash"]))

theorem add_metadata_eq_map (df : List Record) (now : String) :
    add_metadata_columns df [] now = df.map (stampRow now) := by
  unfold add_metadata_columns stampRow
  rw [List.map_map]
  rfl

/-- The content hash a stamping assigns to a row: independent of the
stamping time because both metadata columns are excluded. -/
def rowHashMeta (r : Record) : String :=
  compute_row_hash r ["ingestion_timestamp", "content_hash"]

theorem getCol_stampRow_hash (now : String) (r : Record) :
    getCol (stampRow now r) "content_hash" = .str (rowHashMeta r) := by
  unfold stampRow rowHashMeta
  rw [getCol_setColumn_self]
  rw [compute_row_hash_setColumn _ _ _ _ (by rfl)]

theorem getCol_stampRow_ts (now : String) (r : Record) :
    getCol (stampRow now r) "ingestion_timestamp" = .str now := by
  unfold stampRow
  rw [getCol_setColumn_ne _ _ _ _ (by decide), getCol_setColumn_self]

theorem getCol_stampRow_ne (now : String) (r : Record) (k : String)
    (h1 : k ≠ "ingestion_timestamp") (h2 : k ≠ "content_hash") :
    getCol (stampRow now r) k = getCol r k := by
  unfold stampRow
  rw [getCol_setColumn_ne _ _ _ _ h2, getCol_setColumn_ne _ _ _ _ h1]

/-- The merge-key tuple of one row. -/
def keyTuple (keys : List String) (r : Record) : List Value :=
  keys.map (fun k => getCol r k)

theorem keyTuple_stampRow (keys : List String) (hts : "ingestion_timestamp" ∉ keys)
    (r : Record) (τ τ' : String) :
    keyTuple keys (stampRow τ r) = keyTuple keys (stampRow τ' r) := by
  unfold keyTuple
  apply List.map_congr_left
  intro k hk
  by_cases hch : k = "content_hash"
  · subst hch
    rw [getCol_stampRow_hash, getCol_stampRow_hash]
  · have h1 : k ≠ "ingestion_timestamp" := fun e => hts (e ▸ hk)
    rw [getCol_stampRow_ne _ _ _ h1 hch, getCol_stampRow_ne _ _ _ h1 hch]

theorem rowMatches_iff_keyTuple (keys : List String) (t s : Record) :
    rowMatches keys t s = true ↔ keyTuple keys t = keyTuple keys s := by
  induction keys with
  | nil => simp [rowMatches, keyTuple]
  | cons k ks ih =>
    unfold rowMatches keyTuple at ih ⊢
    simp only [List.all_cons, Bool.and_eq_true, beq_iff_eq, List.map_cons, List.cons.injEq]
    exact and_congr_right fun _ => ih

theorem hashDiffers_eq_false_iff (t s : Record) :
    hashDiffers t s = false ↔ getCol t "content_hash" = getCol s "content_hash" := by
  unfold hashDiffers
  simp

/-! ### Widening and column-list lemmas -/

theorem widenDf_eq_map (df : List Record) : widenDf df = df.map (widenRow df) := rfl

theorem getCol_map_keyFn (r : Record) (f : String × Value → Value) (k : String) :
    getCol (r.map (fun kv => (kv.1, f kv))) k =
      (match r.find? (fun kv => kv.1 == k) with
       | some kv => f kv
       | none => .null) := by
  induction r with
  | nil => rfl
  | cons kv t ih =>
    rw [List.map_cons]
    by_cases hk : (kv.1 == k) = true
    · have hfind : List.find? (fun kv => kv.1 == k) (kv :: t) = some kv :=
        List.find?_cons_of_pos _ hk
      rw [getCol_cons_pos (kv.1, f kv) _ _ (by simpa using hk), hfind]
    · have hfind : List.find? (fun kv => kv.1 == k) (kv :: t) =
          List.find? (fun kv => kv.1 == k) t :=
        List.find?_cons_of_neg _ (by simpa using hk)
      rw [getCol_cons_neg (kv.1, f kv) _ _ (by simpa using hk), hfind, ih]

theorem widenRow_eq_keyFn (df : List Record) (r : Record) :
    widenRow df r = r.map (fun kv =>
      (kv.1, if allNullCol df kv.1 then Value.str (pyToString kv.2) else kv.2)) := by
  unfold widenRow
  apply List.map_congr_left
  intro kv _
  by_cases h : allNullCol df kv.1 <;> simp [h]

theorem getCol_widenRow_notAllNull (df : List Record) (r : Record) (k : String)
    (h : allNullCol df k = false) :
    getCol (widenRow df r) k = getCol r k := by
  rw [widenRow_eq_keyFn, getCol_map_keyFn]
  unfold getCol
  cases hf : r.find? (fun kv => kv.1 == k) with
  | none => rfl
  | some kv =>
    have hkv : kv.1 = k := by simpa using List.find?_some hf
    simp [hkv, h]

theorem mem_dedupKeysAux (l : List String) :
    ∀ (seen : List String) (k : String), k ∈ l → seen.contains k = false →
      k ∈ dedupKeysAux seen l := by
  induction l with
  | nil => intro seen k h; cases h
  | cons a rest ih =>
    intro seen k hk hseen
    unfold dedupKeysAux
    by_cases ha : seen.contains a = true
    · rw [if_pos ha]
      rcases List.mem_cons.mp hk with rfl | hk2
      · rw [hseen] at ha; cases ha
      · exact ih seen k hk2 hseen
    · rw [if_neg ha]
      rcases List.mem_cons.mp hk with rfl | hk2
      · exact List.mem_cons_self _ _
      · by_cases hka : k = a
        · subst hka; exact List.mem_cons_self _ _
        · refine List.mem_cons_of_mem _ (ih (a :: seen) k hk2 ?_)
          have hne : (k == a) = false := beq_eq_false_iff_ne.mpr hka
          rw [List.contains_cons, hne, hseen]
          rfl

theorem mem_dfColumns (df : List Record) (r : Record) (hr : r ∈ df) (k : String)
    (hk : k ∈ r.map Prod.fst) : k ∈ dfColumns df := by
  unfold dfColumns
  apply mem_dedupKeysAux _ [] k _ rfl
  induction df with
  | nil => cases hr
  | cons r0 rest ih =>
    rw [List.foldr_cons]
    rcases List.mem_cons.mp hr with rfl | hr2
    · exact List.mem_append_left _ hk
    · exact List.mem_append_right _ (ih hr2)

theorem mem_keys_setColumn (r : Record) (k : String) (v : Value) :
    k ∈ (setColumn r k v).map Prod.fst := by
  unfold setColumn
  by_cases hany : r.any (fun kv => kv.1 == k) = true
  · rw [if_pos hany]
    obtain ⟨kv, hm, hp⟩ := List.any_eq_true.mp hany
    rw [List.map_map]
    refine List.mem_map.mpr ⟨kv, hm, ?_⟩
    simp only [Function.comp_apply]
    rw [if_pos hp]
  · rw [if_neg hany, List.map_append]
    simp

theorem hash_mem_keys_stampRow (τ : String) (r : Record) :
    "content_hash" ∈ (stampRow τ r).map Prod.fst :=
  mem_keys_setColumn _ _ _

theorem hash_mem_dfColumns_stamped (df : List Record) (τ : String) (r : Record) (hr : r ∈ df) :
    "content_hash" ∈ dfColumns (df.map (stampRow τ)) :=
  mem_dfColumns _ _ (List.mem_map_of_mem _ hr) _ (hash_mem_keys_stampRow τ r)

/-! ### Merge no-op lemma -/

theorem deltaMergeExec_noop (T S : List Record) (keys updCols : List String)
    (hmatch : ∀ s ∈ S, ∃ t ∈ T, rowMatches keys t s = true)
    (hnoupd : ∀ t ∈ T, ∀ s ∈ S, rowMatches keys t s = true → hashDiffers t s = false) :
    deltaMergeExec T S keys updCols = ⟨T, 0, 0⟩ := by
  have hins : S.filter (fun s => !(T.any (fun t => rowMatches keys t s))) = [] := by
    rw [List.filter_eq_nil_iff]
    intro s hs
    obtain ⟨t, ht, hm⟩ := hmatch s hs
    simp [List.any_eq_true]
    exact ⟨t, ht, hm⟩
  have hmap : T.map (mergeRow keys updCols S) = T := by
    have hid : T.map (mergeRow keys updCols S) = T.map id := by
      apply List.map_congr_left
      intro t ht
      unfold mergeRow
      cases hf : S.find? (fun s => rowMatches keys t s) with
      | none => rfl
      | some s =>
        have hs : s ∈ S := List.mem_of_find?_eq_some hf
        have hm : rowMatches keys t s = true := by simpa using List.find?_some hf
        show (if hashDiffers t s = true then applyUpdates t s updCols else t) = id t
        rw [hnoupd t ht s hs hm]
        rfl
    rw [hid, List.map_id]
  have hcount : T.filter (fun t =>
      match S.find? (fun s => rowMatches keys t s) with
      | some s => hashDiffers t s
      | none => false) = [] := by
    rw [List.filter_eq_nil_iff]
    intro t ht
    cases hf : S.find? (fun s => rowMatches keys t s) with
    | none => simp
    | some s =>
      have hs : s ∈ S := List.mem_of_find?_eq_some hf
      have hm : rowMatches keys t s = true := by simpa using List.find?_some hf
      show ¬(hashDiffers t s = true)
      rw [hnoupd t ht s hs hm]
      simp
  unfold deltaMergeExec
  rw [hins, hmap, hcount]
  simp

/-! ### Claim theorems -/

/-- Claim C10: every row of `add_metadata_columns df E` carries the identical
`ingestion_timestamp` value — the timestamp is computed once per batch (the
single `now` argument, read once per call in the source) and assigned to the
whole column, so rows of one stamped batch are indistinguishable by stamping
time. -/
theorem c10_single_batch_timestamp (df : List Record) (excl : List String) (now : String) :
    (add_metadata_columns df excl now).all
      (fun r => getCol r "ingestion_timestamp" == Value.str now) = true := by
  simp only [add_metadata_columns]
  rw [List.all_eq_true]
  intro r' hr'
  simp only [List.mem_map] at hr'
  obtain ⟨r1, ⟨r0, hr0, rfl⟩, rfl⟩ := hr'
  rw [getCol_setColumn_ne _ _ _ _ (by decide), getCol_setColumn_self]
  simp

/-- String-typed value test (the widened text type). -/
def isStrV : Value → Bool
  | .str _ => true
  | _ => false

/-- Claim C9: every write to the table store goes through `_write`, which
first widens the frame: each column whose values are all null has every cell
converted to a string (nullable text), and each column with at least one
non-null value is written with its values unchanged. -/
theorem c9_allnull_columns_widened :
    (∀ (df : List Record) (st : Option TableData) (mode : WriteMode)
        (pb : Option (List String)),
      ∃ prev : List Record, (_write df st mode pb).rows = prev ++ widenDf df) ∧
    (∀ (df : List Record) (k : String), allNullCol df k = true →
      (widenDf df).all (fun r => r.all (fun kv => !(kv.1 == k) || isStrV kv.2)) = true) ∧
    (∀ (df : List Record) (k : String), allNullCol df k = false →
      (widenDf df).map (fun r => getCol r k) = df.map (fun r => getCol r k)) := by
  refine ⟨?_, ?_, ?_⟩
  · intro df st mode pb
    match mode, st with
    | .append, some t => exact ⟨t.rows, rfl⟩
    | .append, none => exact ⟨[], rfl⟩
    | .overwrite, some t => exact ⟨[], rfl⟩
    | .overwrite, none => exact ⟨[], rfl⟩
  · intro df k hnull
    rw [List.all_eq_true]
    intro r' hr'
    rw [List.all_eq_true]
    intro kv' hkv'
    rw [widenDf_eq_map] at hr'
    obtain ⟨r0, hr0, rfl⟩ := List.mem_map.mp hr'
    unfold widenRow at hkv'
    obtain ⟨kv0, hkv0, rfl⟩ := List.mem_map.mp hkv'
    by_cases hcond : allNullCol df kv0.1 = true
    · rw [if_pos hcond]
      simp [isStrV]
    · rw [if_neg hcond]
      by_cases hkk : (kv0.1 == k) = true
      · exfalso
        have : kv0.1 = k := by simpa using hkk
        rw [this, hnull] at hcond
        exact hcond rfl
      · simp [hkk]
  · intro df k hnot
    rw [widenDf_eq_map, List.map_map]
    apply List.map_congr_left
    intro r _
    simp only [Function.comp_apply]
    exact getCol_widenRow_notAllNull df r k hnot

/-- Witness for C9 at a concrete frame: column `x` is all-null and becomes
text, column `y` has a non-null cell and is untouched. -/
theorem c9_allnull_columns_widened_witness :
    allNullCol [[("x", Value.null)], [("x", Value.null), ("y", Value.int 1)]] "x" = true ∧
    (widenDf [[("x", Value.null)], [("x", Value.null), ("y", Value.int 1)]]).all
      (fun r => r.all (fun kv => !(kv.1 == "x") || isStrV kv.2)) = true ∧
    allNullCol [[("x", Value.null)], [("x", Value.null), ("y", Value.int 1)]] "y" = false ∧
    (widenDf [[("x", Value.null)], [("x", Value.null), ("y", Value.int 1)]]).map
        (fun r => getCol r "y") =
      [[("x", Value.null)], [("x", Value.null), ("y", Value.int 1)]].map
        (fun r => getCol r "y") :=
  ⟨by decide, c9_allnull_columns_widened.2.1 _ "x" (by decide), by decide,
    c9_allnull_columns_widened.2.2 _ "y" (by decide)⟩

/-- Claim C5: merging into a table reference that does not exist creates the
table by writing the (stamped, widened) batch as its initial content,
partitioned by the supplied partition columns, and the outcome reports
`table_created = true` with `rows_inserted` equal to the batch's row count. -/
theorem c5_bootstrap_creates_table (df : List Record) (keys : List String)
    (pb : Option (List String)) (τ : String) :
    (save_to_delta df none .merge keys true pb τ).1 =
      some ⟨widenDf (add_metadata_columns df [] τ), pb⟩ ∧
    (save_to_delta df none .merge keys true pb τ).2.lookup "table_created" =
      some (Value.bool true) ∧
    (save_to_delta df none .merge keys true pb τ).2.lookup "rows_inserted" =
      some (Value.int df.length) := by
  refine ⟨rfl, rfl, ?_⟩
  have hlen : (add_metadata_columns df [] τ).length = df.length := by
    simp [add_metadata_columns]
  calc (save_to_delta df none .merge keys true pb τ).2.lookup "rows_inserted"
      = some (Value.int (add_metadata_columns df [] τ).length) := rfl
    _ = some (Value.int df.length) := by rw [hlen]

/-- Claim C4 counterexample: merging into an already-existing table returns
an outcome with no `rows_inserted` and no `rows_updated` key at all — only
`merge_completed` and `table_created` (plus the base stats) — so the claimed
counts are not part of the outcome returned to the caller. -/
theorem c4_counterexample_no_counts :
    ((save_to_delta [[("ID", Value.int 1)]]
        (some ⟨[[("ID", Value.int 1)]], none⟩) .merge ["ID"] true none "t").2.lookup
      "rows_inserted" = none) ∧
    ((save_to_delta [[("ID", Value.int 1)]]
        (some ⟨[[("ID", Value.int 1)]], none⟩) .merge ["ID"] true none "t").2.lookup
      "rows_updated" = none) ∧
    ((save_to_delta [[("ID", Value.int 1)]]
        (some ⟨[[("ID", Value.int 1)]], none⟩) .merge ["ID"] true none "t").2.lookup
      "merge_completed" = some (Value.bool true)) :=
  ⟨rfl, rfl, rfl⟩

/-- Claim C4 as amended: the outcome of a merge always carries the
`table_created` flag; only the table-creation path reports `rows_inserted`
(as the batch size), while a merge into an existing table reports
`merge_completed = true` and no per-merge inserted/updated row counts (the
row metrics of the Table Store's `execute()` are discarded by the code). -/
theorem c4_amended_outcome_keys :
    (∀ (df : List Record) (t : TableData) (keys : List String)
        (pb : Option (List String)) (τ : String),
      (save_to_delta df (some t) .merge keys true pb τ).2.lookup "merge_completed" =
          some (Value.bool true) ∧
      (save_to_delta df (some t) .merge keys true pb τ).2.lookup "table_created" =
          some (Value.bool false) ∧
      (save_to_delta df (some t) .merge keys true pb τ).2.lookup "rows_inserted" = none ∧
      (save_to_delta df (some t) .merge keys true pb τ).2.lookup "rows_updated" = none) ∧
    (∀ (df : List Record) (keys : List String) (pb : Option (List String)) (τ : String),
      (save_to_delta df none .merge keys true pb τ).2.lookup "table_created" =
          some (Value.bool true) ∧
      (save_to_delta df none .merge keys true pb τ).2.lookup "rows_inserted" =
          some (Value.int df.length)) := by
  constructor
  · intro df t keys pb τ
    exact ⟨rfl, rfl, rfl, rfl⟩
  · intro df keys pb τ
    refine ⟨rfl, ?_⟩
    have hlen : (add_metadata_columns df [] τ).length = df.length := by
      simp [add_metadata_columns]
    calc (save_to_delta df none .merge keys true pb τ).2.lookup "rows_inserted"
        = some (Value.int (add_metadata_columns df [] τ).length) := rfl
      _ = some (Value.int df.length) := by rw [hlen]

/-! ### Retry-loop lemmas and Claim C6 -/

theorem mergeRetryGo_step_ok {α : Type} (outcome : Nat → Except String α) (a rem : Nat) (v : α)
    (h : outcome a = .ok v) :
    mergeRetryGo outcome a (rem + 1) = ([], .ok v) := by
  unfold mergeRetryGo
  rw [h]

theorem mergeRetryGo_step_conflict {α : Type} (outcome : Nat → Except String α) (a rem : Nat)
    (e : String) (he : outcome a = .error e) (hc : isConflictError e = true)
    (hlt : a < MAX_MERGE_RETRIES) :
    mergeRetryGo outcome a (rem + 1) =
      (RETRY_DELAY_SECONDS * a :: (mergeRetryGo outcome (a + 1) rem).1,
       (mergeRetryGo outcome (a + 1) rem).2) := by
  show (match outcome a with
    | .ok v => ([], Except.ok v)
    | .error e =>
      if (isConflictError e && decide (a < MAX_MERGE_RETRIES)) = true then
        (RETRY_DELAY_SECONDS * a :: (mergeRetryGo outcome (a + 1) rem).1,
          (mergeRetryGo outcome (a + 1) rem).2)
      else ([], Except.error e)) = _
  rw [he]
  show (if (isConflictError e && decide (a < MAX_MERGE_RETRIES)) = true then
      (RETRY_DELAY_SECONDS * a :: (mergeRetryGo outcome (a + 1) rem).1,
        (mergeRetryGo outcome (a + 1) rem).2)
    else ([], Except.error e)) = _
  rw [if_pos (by rw [hc]; simp [hlt])]

theorem mergeRetryGo_step_raise {α : Type} (outcome : Nat → Except String α) (a rem : Nat)
    (e : String) (he : outcome a = .error e)
    (hne : (isConflictError e && decide (a < MAX_MERGE_RETRIES)) = false) :
    mergeRetryGo outcome a (rem + 1) = ([], .error e) := by
  show (match outcome a with
    | .ok v => ([], Except.ok v)
    | .error e =>
      if (isConflictError e && decide (a < MAX_MERGE_RETRIES)) = true then
        (RETRY_DELAY_SECONDS * a :: (mergeRetryGo outcome (a + 1) rem).1,
          (mergeRetryGo outcome (a + 1) rem).2)
      else ([], Except.error e)) = _
  rw [he]
  show (if (isConflictError e && decide (a < MAX_MERGE_RETRIES)) = true then
      (RETRY_DELAY_SECONDS * a :: (mergeRetryGo outcome (a + 1) rem).1,
        (mergeRetryGo outcome (a + 1) rem).2)
    else ([], Except.error e)) = _
  rw [if_neg (by rw [hne]; simp)]

theorem mergeRetryGo_conflict_segment {α : Type} (outcome : Nat → Except String α) :
    ∀ (K a : Nat),
      (∀ i, a ≤ i → i < a + K → ∃ e, outcome i = .error e ∧ isConflictError e = true) →
      a + K ≤ MAX_MERGE_RETRIES →
      mergeRetryGo outcome a (MAX_MERGE_RETRIES + 1 - a) =
        ((List.range K).map (fun j => RETRY_DELAY_SECONDS * (a + j)) ++
            (mergeRetryGo outcome (a + K) (MAX_MERGE_RETRIES + 1 - (a + K))).1,
          (mergeRetryGo outcome (a + K) (MAX_MERGE_RETRIES + 1 - (a + K))).2) := by
  intro K
  induction K with
  | zero =>
    intro a hconf hle
    simp
  | succ K ih =>
    intro a hconf hle
    obtain ⟨e, he, hce⟩ := hconf a (le_refl a) (by omega)
    have hlt : a < MAX_MERGE_RETRIES := by
      unfold MAX_MERGE_RETRIES at *
      omega
    have hrem : MAX_MERGE_RETRIES + 1 - a = (MAX_MERGE_RETRIES - a) + 1 := by omega
    have hrem2 : MAX_MERGE_RETRIES - a = MAX_MERGE_RETRIES + 1 - (a + 1) := by omega
    rw [hrem, mergeRetryGo_step_conflict outcome a _ e he hce hlt, hrem2]
    have hih := ih (a + 1)
      (fun i h1 h2 => hconf i (by omega) (by omega)) (by omega)
    rw [hih]
    have harg : a + 1 + K = a + (K + 1) := by omega
    rw [harg]
    have hrange : (List.range (K + 1)).map (fun j => RETRY_DELAY_SECONDS * (a + j)) =
        RETRY_DELAY_SECONDS * a ::
          (List.range K).map (fun j => RETRY_DELAY_SECONDS * (a + 1 + j)) := by
      rw [List.range_succ_eq_map, List.map_cons, List.map_map]
      refine congrArg₂ _ (by rw [Nat.add_zero]) (List.map_congr_left fun j _ => ?_)
      simp only [Function.comp_apply]
      congr 1
      omega
    rw [hrange]
    rfl

/-- Claim C6: the merge retry loop retries only conflict-class errors,
sleeping the linearly increasing delay `attempt × RETRY_DELAY_SECONDS`
between attempts, up to `MAX_MERGE_RETRIES` attempts. First K conflict
attempts followed by a success (K below the maximum) yield the single
successful outcome; a non-conflict error propagates immediately without a
further retry; conflicts through the final attempt re-raise the last
conflict error as the fatal failure for the batch. -/
theorem c6_merge_retry_policy :
    (∀ (outcome : Nat → Except String Nat) (K : Nat) (v : Nat),
      K < MAX_MERGE_RETRIES →
      (∀ i, 1 ≤ i → i ≤ K → ∃ e, outcome i = .error e ∧ isConflictError e = true) →
      outcome (K + 1) = .ok v →
      _merge_to_delta outcome =
        ((List.range K).map (fun j => RETRY_DELAY_SECONDS * (1 + j)), .ok v)) ∧
    (∀ (outcome : Nat → Except String Nat) (J : Nat) (e : String),
      1 ≤ J → J ≤ MAX_MERGE_RETRIES →
      (∀ i, 1 ≤ i → i < J → ∃ e2, outcome i = .error e2 ∧ isConflictError e2 = true) →
      outcome J = .error e → isConflictError e = false →
      _merge_to_delta outcome =
        ((List.range (J - 1)).map (fun j => RETRY_DELAY_SECONDS * (1 + j)), .error e)) ∧
    (∀ (outcome : Nat → Except String Nat) (e : String),
      (∀ i, 1 ≤ i → i < MAX_MERGE_RETRIES →
        ∃ e2, outcome i = .error e2 ∧ isConflictError e2 = true) →
      outcome MAX_MERGE_RETRIES = .error e → isConflictError e = true →
      _merge_to_delta outcome =
        ((List.range (MAX_MERGE_RETRIES - 1)).map (fun j => RETRY_DELAY_SECONDS * (1 + j)),
          .error e)) := by
  refine ⟨?_, ?_, ?_⟩
  · intro outcome K v hK hconf hok
    unfold _merge_to_delta
    have h1 : MAX_MERGE_RETRIES = MAX_MERGE_RETRIES + 1 - 1 := by omega
    rw [h1, mergeRetryGo_conflict_segment outcome K 1
      (fun i hi1 hi2 => hconf i hi1 (by omega)) (by omega)]
    have h2 : MAX_MERGE_RETRIES + 1 - (1 + K) = (MAX_MERGE_RETRIES - 1 - K) + 1 := by
      unfold MAX_MERGE_RETRIES at *
      omega
    have h3 : outcome (1 + K) = .ok v := by
      rw [Nat.add_comm 1 K]
      exact hok
    rw [h2, mergeRetryGo_step_ok outcome (1 + K) _ v h3]
    simp
  · intro outcome J e hJ1 hJmax hconf herr hnc
    unfold _merge_to_delta
    have h1 : MAX_MERGE_RETRIES = MAX_MERGE_RETRIES + 1 - 1 := by omega
    rw [h1, mergeRetryGo_conflict_segment outcome (J - 1) 1
      (fun i hi1 hi2 => hconf i hi1 (by omega)) (by omega)]
    have hJ : 1 + (J - 1) = J := by omega
    have h2 : MAX_MERGE_RETRIES + 1 - J = (MAX_MERGE_RETRIES - J) + 1 := by omega
    rw [hJ, h2, mergeRetryGo_step_raise outcome J _ e herr (by rw [hnc]; rfl)]
    simp
  · intro outcome e hconf herr hc
    unfold _merge_to_delta
    have h1 : MAX_MERGE_RETRIES = MAX_MERGE_RETRIES + 1 - 1 := by omega
    rw [h1, mergeRetryGo_conflict_segment outcome (MAX_MERGE_RETRIES - 1) 1
      (fun i hi1 hi2 => hconf i hi1 (by unfold MAX_MERGE_RETRIES at *; omega))
      (by unfold MAX_MERGE_RETRIES; omega)]
    have hM : 1 + (MAX_MERGE_RETRIES - 1) = MAX_MERGE_RETRIES := by
      unfold MAX_MERGE_RETRIES
      omega
    have h2 : MAX_MERGE_RETRIES + 1 - MAX_MERGE_RETRIES = 0 + 1 := by omega
    rw [hM, h2, mergeRetryGo_step_raise outcome MAX_MERGE_RETRIES _ e herr
      (by rw [hc]; simp)]
    simp

/-- Two simulated conflicts, then success on the third attempt. -/
def conflictThenOk : Nat → Except String Nat := fun i =>
  if i ≤ 2 then .error "concurrent modification of table" else .ok 42

/-- Witness for C6: with two conflicts and a third successful attempt, the
loop sleeps 2 then 4 seconds and returns the success. -/
theorem c6_merge_retry_policy_witness :
    _merge_to_delta conflictThenOk = ([2, 4], .ok 42) := by
  have h := c6_merge_retry_policy.1 conflictThenOk 2 42 (by decide)
    (fun i h1 h2 => ⟨"concurrent modification of table", by
      unfold conflictThenOk
      rw [if_pos h2]
      exact ⟨rfl, by decide⟩⟩)
    rfl
  exact h.trans rfl

/-! ### Backoff lemmas and Claim C7 -/

theorem backoffGo_step_ok {α : Type} (r : FetchErr → Bool) (w : Nat → Nat)
    (att : Nat → Except FetchErr α) (a rem : Nat) (v : α) (h : att a = .ok v) :
    backoffGo r w att a (rem + 1) = ([], .ok v) := by
  unfold backoffGo
  rw [h]

theorem backoffGo_step_retry {α : Type} (r : FetchErr → Bool) (w : Nat → Nat)
    (att : Nat → Except FetchErr α) (a rem : Nat) (e : FetchErr)
    (he : att a = .error e) (hre : r e = true) (hrem : 0 < rem) :
    backoffGo r w att a (rem + 1) =
      (w a :: (backoffGo r w att (a + 1) rem).1, (backoffGo r w att (a + 1) rem).2) := by
  show (match att a with
    | .ok v => ([], Except.ok v)
    | .error e =>
      if (r e && decide (0 < rem)) = true then
        (w a :: (backoffGo r w att (a + 1) rem).1, (backoffGo r w att (a + 1) rem).2)
      else ([], Except.error e)) = _
  rw [he]
  show (if (r e && decide (0 < rem)) = true then
      (w a :: (backoffGo r w att (a + 1) rem).1, (backoffGo r w att (a + 1) rem).2)
    else ([], Except.error e)) = _
  rw [if_pos (by rw [hre]; simp [hrem])]

theorem backoffGo_step_raise {α : Type} (r : FetchErr → Bool) (w : Nat → Nat)
    (att : Nat → Except FetchErr α) (a rem : Nat) (e : FetchErr)
    (he : att a = .error e) (hstop : (r e && decide (0 < rem)) = false) :
    backoffGo r w att a (rem + 1) = ([], .error e) := by
  show (match att a with
    | .ok v => ([], Except.ok v)
    | .error e =>
      if (r e && decide (0 < rem)) = true then
        (w a :: (backoffGo r w att (a + 1) rem).1, (backoffGo r w att (a + 1) rem).2)
      else ([], Except.error e)) = _
  rw [he]
  show (if (r e && decide (0 < rem)) = true then
      (w a :: (backoffGo r w att (a + 1) rem).1, (backoffGo r w att (a + 1) rem).2)
    else ([], Except.error e)) = _
  rw [if_neg (by rw [hstop]; simp)]

theorem backoffGo_retry_segment {α : Type} (r : FetchErr → Bool) (w : Nat → Nat)
    (att : Nat → Except FetchErr α) :
    ∀ (K a rem : Nat),
      (∀ i, a ≤ i → i < a + K → ∃ e, att i = .error e ∧ r e = true) →
      K < rem →
      backoffGo r w att a rem =
        ((List.range K).map (fun j => w (a + j)) ++
            (backoffGo r w att (a + K) (rem - K)).1,
          (backoffGo r w att (a + K) (rem - K)).2) := by
  intro K
  induction K with
  | zero =>
    intro a rem h hk
    simp
  | succ K ih =>
    intro a rem hconf hK
    obtain ⟨e, he, hre⟩ := hconf a (le_refl a) (by omega)
    obtain ⟨rem2, rfl⟩ : ∃ q, rem = q + 1 := ⟨rem - 1, by omega⟩
    rw [backoffGo_step_retry r w att a rem2 e he hre (by omega)]
    have hih := ih (a + 1) rem2 (fun i h1 h2 => hconf i (by omega) (by omega)) (by omega)
    rw [hih]
    have harg : a + 1 + K = a + (K + 1) := by omega
    have harg2 : rem2 - K = rem2 + 1 - (K + 1) := by omega
    rw [harg, harg2]
    have hrange : (List.range (K + 1)).map (fun j => w (a + j)) =
        w a :: (List.range K).map (fun j => w (a + 1 + j)) := by
      rw [List.range_succ_eq_map, List.map_cons, List.map_map]
      refine congrArg₂ _ (by rw [Nat.add_zero]) (List.map_congr_left fun j _ => ?_)
      simp only [Function.comp_apply]
      congr 1
      omega
    rw [hrange]
    rfl

/-- A fetch whose first attempt raises an HTTP 404 status error (a 4xx) and
whose second attempt succeeds. -/
def status404ThenOk : Nat → Except FetchErr Nat := fun i =>
  if i = 1 then .error (.statusErr 404) else .ok 7

/-- Claim C7 counterexample: a 4xx status error does not surface
immediately — `_fetch_availability` retries it (after a constant 30-second
base delay, not an exponential one) and returns the second attempt's value,
because the decorated exception tuple contains `httpx.HTTPStatusError`,
which `raise_for_status` raises for 4xx as well as 5xx. -/
theorem c7_counterexample_4xx_retried :
    _fetch_availability status404ThenOk = ([30], .ok 7) := rfl

/-- Claim C7 as amended: both fetch decorators retry every httpx-class
failure — network errors, timeouts, and HTTP status errors of any status
code, 4xx included — up to the fixed maximum number of tries (3 for the
availability fetcher with constant 30-second base waits; 5 for the iPrefer
client with exponential base waits 1, 2, 4, ...), surfacing the final
exhausted failure; an error outside the httpx classes (such as a
malformed-response parse failure) surfaces immediately without retry. -/
theorem c7_amended_retry_policy :
    (∀ (att : Nat → Except FetchErr Nat) (K : Nat) (v : Nat),
      K < 3 →
      (∀ i, 1 ≤ i → i ≤ K → ∃ e, att i = .error e ∧ isHttpxError e = true) →
      att (K + 1) = .ok v →
      _fetch_availability att = ((List.range K).map (fun _ => 30), .ok v)) ∧
    (∀ (att : Nat → Except FetchErr Nat) (e : FetchErr),
      (∀ i, 1 ≤ i → i < 3 → ∃ e2, att i = .error e2 ∧ isHttpxError e2 = true) →
      att 3 = .error e → isHttpxError e = true →
      _fetch_availability att = ([30, 30], .error e)) ∧
    (∀ (att : Nat → Except FetchErr Nat) (e : FetchErr),
      att 1 = .error e → isHttpxError e = false →
      _fetch_availability att = ([], .error e)) ∧
    (∀ (att : Nat → Except FetchErr Nat) (K : Nat) (v : Nat),
      K < 5 →
      (∀ i, 1 ≤ i → i ≤ K → ∃ e, att i = .error e ∧ isHttpxError e = true) →
      att (K + 1) = .ok v →
      fetch_hotel_links att = ((List.range K).map (fun j => 2 ^ j), .ok v)) := by
  refine ⟨?_, ?_, ?_, ?_⟩
  · intro att K v hK hconf hok
    unfold _fetch_availability backoffOnException
    rw [backoffGo_retry_segment isHttpxError (constantWait 30) att K 1 3
      (fun i h1 h2 => hconf i h1 (by omega)) (by omega)]
    obtain ⟨q, hq⟩ : ∃ q, 3 - K = q + 1 := ⟨2 - K, by omega⟩
    have hok2 : att (1 + K) = .ok v := by
      rw [Nat.add_comm 1 K]
      exact hok
    rw [hq, backoffGo_step_ok _ _ att (1 + K) q v hok2]
    simp [constantWait]
  · intro att e hconf herr hre
    unfold _fetch_availability backoffOnException
    rw [backoffGo_retry_segment isHttpxError (constantWait 30) att 2 1 3
      (fun i h1 h2 => hconf i h1 (by omega)) (by omega)]
    rw [show (3 : Nat) - 2 = 0 + 1 from rfl,
      backoffGo_step_raise _ _ att (1 + 2) 0 e herr (by rw [hre]; simp)]
    simp [constantWait]
  · intro att e herr hnre
    unfold _fetch_availability backoffOnException
    rw [show (3 : Nat) = 2 + 1 from rfl,
      backoffGo_step_raise _ _ att 1 2 e herr (by rw [hnre]; simp)]
  · intro att K v hK hconf hok
    unfold fetch_hotel_links backoffOnException
    rw [backoffGo_retry_segment isHttpxError expoWait att K 1 5
      (fun i h1 h2 => hconf i h1 (by omega)) (by omega)]
    obtain ⟨q, hq⟩ : ∃ q, 5 - K = q + 1 := ⟨4 - K, by omega⟩
    have hok2 : att (1 + K) = .ok v := by
      rw [Nat.add_comm 1 K]
      exact hok
    rw [hq, backoffGo_step_ok _ _ att (1 + K) q v hok2]
    refine congrArg₂ _ ?_ rfl
    rw [List.append_nil]
    apply List.map_congr_left
    intro j _
    unfold expoWait
    congr 1
    omega

/-- A fetch raising a 500 then a 429 status error, succeeding on the third
attempt. -/
def transientThenOk : Nat → Except FetchErr Nat := fun i =>
  if i = 1 then .error (.statusErr 500)
  else if i = 2 then .error (.statusErr 429) else .ok 9

/-- Witness for the amended C7 at concrete attempt sequences. -/
theorem c7_amended_retry_policy_witness :
    _fetch_availability transientThenOk = ([30, 30], .ok 9) ∧
    _fetch_availability (fun _ => (.error .parseErr : Except FetchErr Nat)) =
      ([], .error .parseErr) := by
  constructor
  · have h := c7_amended_retry_policy.1 transientThenOk 2 9 (by decide)
      (fun i h1 h2 => by
        interval_cases i
        · exact ⟨.statusErr 500, rfl, rfl⟩
        · exact ⟨.statusErr 429, rfl, rfl⟩)
      rfl
    exact h.trans rfl
  · exact c7_amended_retry_policy.2.2.1 (fun _ => (.error .parseErr : Except FetchErr Nat))
      .parseErr rfl rfl

/-! ### Pagination lemmas and Claim C8 -/

theorem ingestGo_succ (api : Nat → PageResponse) (maxPages : Option Nat)
    (pageSize startSkip : Nat) (now : Nat → String) (f p : Nat) (st : Option TableData)
    (hcond : (maxPages.all (fun m => decide (p < m))) = true) :
    ingestGo api maxPages pageSize startSkip now (f + 1) p st =
      (if (api (startSkip + p * pageSize)).rows.isEmpty = true
       then ([(startSkip + p * pageSize, false)], st)
       else
         if (api (startSkip + p * pageSize)).hasMore = true then
           ((startSkip + p * pageSize, true) ::
              (ingestGo api maxPages pageSize startSkip now f (p + 1)
                ((save_to_delta (api (startSkip + p * pageSize)).rows st .merge
                  ["RouteID", "UpdatedAt"] true (some ["Source", "Date"]) (now (p + 1))).1)).1,
            (ingestGo api maxPages pageSize startSkip now f (p + 1)
                ((save_to_delta (api (startSkip + p * pageSize)).rows st .merge
                  ["RouteID", "UpdatedAt"] true (some ["Source", "Date"]) (now (p + 1))).1)).2)
         else ([(startSkip + p * pageSize, true)],
           (save_to_delta (api (startSkip + p * pageSize)).rows st .merge
             ["RouteID", "UpdatedAt"] true (some ["Source", "Date"]) (now (p + 1))).1)) := by
  conv_lhs => rw [ingestGo]
  rw [if_pos hcond]

theorem ingestGo_runs_pages (api : Nat → PageResponse) (maxPages : Option Nat)
    (pageSize startSkip : Nat) (now : Nat → String) :
    ∀ (N : Nat) (p fuel : Nat) (st : Option TableData),
      1 ≤ N → N ≤ fuel →
      (∀ k, 1 ≤ k → k ≤ N → (api (startSkip + (p + k - 1) * pageSize)).rows.isEmpty = false) →
      (∀ k, 1 ≤ k → k < N → (api (startSkip + (p + k - 1) * pageSize)).hasMore = true) →
      (api (startSkip + (p + N - 1) * pageSize)).hasMore = false →
      (∀ m, maxPages = some m → p + N ≤ m) →
      (ingestGo api maxPages pageSize startSkip now fuel p st).1 =
        (List.range N).map (fun j => (startSkip + (p + j) * pageSize, true)) := by
  intro N
  induction N with
  | zero =>
    intro p fuel st h1
    exact absurd h1 (by omega)
  | succ N ih =>
    intro p fuel st h1 hfuel hne hmore hlast hmax
    obtain ⟨f, rfl⟩ : ∃ f, fuel = f + 1 := ⟨fuel - 1, by omega⟩
    have hcond : (maxPages.all (fun m => decide (p < m))) = true := by
      cases maxPages with
      | none => rfl
      | some m =>
        simp only [Option.all_some, decide_eq_true_eq]
        have := hmax m rfl
        omega
    rw [ingestGo_succ api maxPages pageSize startSkip now f p st hcond]
    have hempty : (api (startSkip + p * pageSize)).rows.isEmpty = false := by
      have := hne 1 (le_refl 1) (by omega)
      simpa using this
    rw [hempty]
    simp only [Bool.false_eq_true, if_false]
    cases N with
    | zero =>
      have hm : (api (startSkip + p * pageSize)).hasMore = false := by
        have := hlast
        simpa using this
      rw [hm]
      simp only [Bool.false_eq_true, if_false]
      have hr1 : List.range 1 = [0] := rfl
      rw [hr1, List.map_cons, List.map_nil, Nat.add_zero]
    | succ M =>
      have hm : (api (startSkip + p * pageSize)).hasMore = true := by
        have := hmore 1 (le_refl 1) (by omega)
        simpa using this
      rw [hm]
      simp only [if_true]
      have hih := ih (p + 1) f
        ((save_to_delta (api (startSkip + p * pageSize)).rows st .merge
          ["RouteID", "UpdatedAt"] true (some ["Source", "Date"]) (now (p + 1))).1)
        (by omega) (by omega)
        (fun k hk1 hk2 => by
          have := hne (k + 1) (by omega) (by omega)
          have harg : p + (k + 1) - 1 = p + 1 + k - 1 := by omega
          rw [harg] at this
          exact this)
        (fun k hk1 hk2 => by
          have := hmore (k + 1) (by omega) (by omega)
          have harg : p + (k + 1) - 1 = p + 1 + k - 1 := by omega
          rw [harg] at this
          exact this)
        (by
          have harg : p + (M + 1 + 1) - 1 = p + 1 + (M + 1) - 1 := by omega
          rw [harg] at hlast
          exact hlast)
        (fun m hm2 => by
          have := hmax m hm2
          omega)
      show (startSkip + p * pageSize, true) :: (ingestGo api maxPages pageSize startSkip now f
          (p + 1) ((save_to_delta (api (startSkip + p * pageSize)).rows st .merge
            ["RouteID", "UpdatedAt"] true (some ["Source", "Date"]) (now (p + 1))).1)).1 = _
      rw [hih]
      conv_rhs => rw [List.range_succ_eq_map, List.map_cons, List.map_map]
      refine congrArg₂ List.cons ?_ ?_
      · rw [Nat.add_zero]
      · apply List.map_congr_left
        intro j _
        simp only [Function.comp_apply]
        have harg : p + 1 + j = p + (j + 1) := by omega
        rw [harg]

/-- Claim C8: given an upstream with N non-empty pages whose `hasMore` flag
is false only on the Nth (N within the max-pages limit when one is
supplied), the pagination loop performs exactly N fetches, merging each of
the N pages, and then stops — the trace equals the N pairs
`(start_skip + (k-1)·page_size, merged)` and is the same for every
sufficient fuel, so no further fetch happens; an empty result set ends the
run with that single unmerged fetch. -/
theorem c8_pagination_termination :
    (∀ (api : Nat → PageResponse) (maxPages : Option Nat) (pageSize startSkip : Nat)
        (now : Nat → String) (st : Option TableData) (N fuel : Nat),
      1 ≤ N → N ≤ fuel →
      (∀ k, 1 ≤ k → k ≤ N → (api (startSkip + (k - 1) * pageSize)).rows.isEmpty = false) →
      (∀ k, 1 ≤ k → k < N → (api (startSkip + (k - 1) * pageSize)).hasMore = true) →
      (api (startSkip + (N - 1) * pageSize)).hasMore = false →
      (∀ m, maxPages = some m → N ≤ m) →
      (ingest_availability api maxPages pageSize startSkip now st fuel).1 =
        (List.range N).map (fun j => (startSkip + j * pageSize, true))) ∧
    (∀ (api : Nat → PageResponse) (maxPages : Option Nat) (pageSize startSkip : Nat)
        (now : Nat → String) (st : Option TableData) (fuel : Nat),
      (api startSkip).rows.isEmpty = true →
      (∀ m, maxPages = some m → 0 < m) → 1 ≤ fuel →
      (ingest_availability api maxPages pageSize startSkip now st fuel).1 =
        [(startSkip, false)]) := by
  constructor
  · intro api maxPages pageSize startSkip now st N fuel hN hfuel hne hmore hlast hmax
    unfold ingest_availability
    have h := ingestGo_runs_pages api maxPages pageSize startSkip now N 0 fuel st hN hfuel
      (fun k hk1 hk2 => by
        rw [show (0 : Nat) + k - 1 = k - 1 by omega]
        exact hne k hk1 hk2)
      (fun k hk1 hk2 => by
        rw [show (0 : Nat) + k - 1 = k - 1 by omega]
        exact hmore k hk1 hk2)
      (by
        rw [show (0 : Nat) + N - 1 = N - 1 by omega]
        exact hlast)
      (fun m hm => by
        have := hmax m hm
        omega)
    rw [h]
    apply List.map_congr_left
    intro j _
    rw [Nat.zero_add]
  · intro api maxPages pageSize startSkip now st fuel hempty hmax hfuel
    unfold ingest_availability
    obtain ⟨f, rfl⟩ : ∃ f, fuel = f + 1 := ⟨fuel - 1, by omega⟩
    have hcond : (maxPages.all (fun m => decide (0 < m))) = true := by
      cases maxPages with
      | none => rfl
      | some m =>
        simp only [Option.all_some, decide_eq_true_eq]
        exact hmax m rfl
    rw [ingestGo_succ api maxPages pageSize startSkip now f 0 st hcond]
    have hempty2 : (api (startSkip + 0 * pageSize)).rows.isEmpty = true := by
      rw [Nat.zero_mul, Nat.add_zero]
      exact hempty
    rw [hempty2]
    simp only [if_true]
    rw [Nat.zero_mul, Nat.add_zero]

/-- A simulated upstream with two non-empty pages (skips 0 and 100) and
`hasMore` false on the second. -/
def twoPageApi : Nat → PageResponse := fun skip =>
  if skip = 0 then ⟨[[("RouteID", Value.int 1), ("UpdatedAt", Value.str "u1")]], true⟩
  else if skip = 100 then ⟨[[("RouteID", Value.int 2), ("UpdatedAt", Value.str "u2")]], false⟩
  else ⟨[], false⟩

/-- Witness for C8: two pages are fetched at skips 0 and 100 and both
merged, then the loop stops; an upstream whose first page is empty produces
a single unmerged fetch. -/
theorem c8_pagination_termination_witness :
    (ingest_availability twoPageApi none 100 0 (fun _ => "t") none 2).1 =
      [(0, true), (100, true)] ∧
    (ingest_availability (fun _ => ⟨[], false⟩) none 100 0 (fun _ => "t") none 1).1 =
      [(0, false)] := by
  constructor
  · have h := c8_pagination_termination.1 twoPageApi none 100 0 (fun _ => "t") none 2 2
      (by decide) (by decide)
      (fun k hk1 hk2 => by
        interval_cases k
        · rfl
        · rfl)
      (fun k hk1 hk2 => by
        interval_cases k
        rfl)
      rfl
      (fun m hm => by cases hm)
    exact h.trans rfl
  · exact c8_pagination_termination.2 (fun _ => ⟨[], false⟩) none 100 0 (fun _ => "t") none 1
      rfl (fun m hm => by cases hm) (by decide)

/-! ### Digest-shape lemmas and Claim C3 -/

theorem padHex_length (n x : Nat) : (padHex n x).length = n := by
  induction n generalizing x with
  | zero => rfl
  | succ n ih =>
    unfold padHex
    rw [List.length_append, ih]
    simp

theorem sha256HexChars_length (msg : List Nat) : (sha256HexChars msg).length = 64 := by
  unfold sha256HexChars
  simp [padHex_length]

theorem hexDigitChar_mem (m : Nat) (h : m < 16) :
    hexDigitChar m ∈ "0123456789abcdef".data := by
  interval_cases m <;> decide

theorem mem_padHex (n x : Nat) (c : Char) (h : c ∈ padHex n x) :
    c ∈ "0123456789abcdef".data := by
  induction n generalizing x with
  | zero => cases h
  | succ n ih =>
    unfold padHex at h
    rcases List.mem_append.mp h with h1 | h1
    · exact ih _ h1
    · rcases List.mem_singleton.mp h1 with rfl
      exact hexDigitChar_mem _ (Nat.mod_lt _ (by omega))

theorem mem_sha256HexChars (msg : List Nat) (c : Char) (h : c ∈ sha256HexChars msg) :
    c ∈ "0123456789abcdef".data := by
  unfold sha256HexChars at h
  simp only [List.mem_append] at h
  rcases h with ((((((h | h) | h) | h) | h) | h) | h) | h <;> exact mem_padHex _ _ _ h

/-- Claim C3: `compute_row_hash` returns a 16-hex-character digest that
depends only on the non-excluded column values — it is unchanged under any
permutation of the row's entries, and metadata stamping (which always
excludes `ingestion_timestamp` and `content_hash` from the hash, rendering
nulls as a fixed sentinel rather than dropping them) assigns hashes that do
not depend on the stamping time. -/
theorem c3_hash_deterministic :
    (∀ (row : Record) (excl : List String),
      (compute_row_hash row excl).length = 16 ∧
      ∀ c ∈ (compute_row_hash row excl).data, c ∈ "0123456789abcdef".data) ∧
    (∀ (row row' : Record) (excl : List String), row.Perm row' →
      compute_row_hash row excl = compute_row_hash row' excl) ∧
    (∀ (df : List Record) (excl : List String) (τ τ' : String),
      (add_metadata_columns df excl τ).map (fun r => getCol r "content_hash") =
        (add_metadata_columns df excl τ').map (fun r => getCol r "content_hash")) := by
  refine ⟨?_, ?_, ?_⟩
  · intro row excl
    constructor
    · show (String.mk _).length = 16
      rw [show ∀ l : List Char, (String.mk l).length = l.length from fun _ => rfl]
      rw [List.length_take, sha256HexChars_length]
      rfl
    · intro c hc
      have hc2 : c ∈ (sha256HexChars
          (strUtf8 (jsonDumpsEntries (canonicalEntries row excl)))).take 16 := hc
      exact mem_sha256HexChars _ _ (List.mem_of_mem_take hc2)
  · intro row row' excl h
    exact compute_row_hash_perm row row' excl h
  · intro df excl τ τ'
    unfold add_metadata_columns
    rw [List.map_map, List.map_map, List.map_map, List.map_map]
    apply List.map_congr_left
    intro r _
    simp only [Function.comp_apply]
    rw [getCol_setColumn_self, getCol_setColumn_self]
    have hts : (excl ++ ["ingestion_timestamp", "content_hash"]).contains
        "ingestion_timestamp" = true :=
      List.elem_eq_true_of_mem (List.mem_append_right _ (by decide))
    rw [compute_row_hash_setColumn _ _ _ _ hts, compute_row_hash_setColumn _ _ _ _ hts]

/-- Witness for C3: two permuted two-column rows hash identically. -/
theorem c3_hash_deterministic_witness :
    ([("a", Value.int 1), ("b", Value.str "x")] : Record).Perm
        [("b", Value.str "x"), ("a", Value.int 1)] ∧
    compute_row_hash [("a", Value.int 1), ("b", Value.str "x")] [] =
      compute_row_hash [("b", Value.str "x"), ("a", Value.int 1)] [] :=
  ⟨by decide, c3_hash_deterministic.2.1 _ _ [] (by decide)⟩

/-- Claim C2: in a merge into an existing table, each incoming row is
matched against existing rows by equality on every merge-key column; a
matched existing row whose stored content hash equals the incoming hash is
left untouched; a matched row whose hash differs has each updated column
overwritten with the incoming row's value (the update map covers the source
frame's columns) while its other columns are untouched; an incoming row
matching no existing row is inserted into the resulting table. -/
theorem c2_merge_row_semantics (T : List Record) (pb : Option (List String))
    (S : List Record) (keys : List String) :
    ((_execute_merge S (some ⟨T, pb⟩) keys pb).1 =
      some ⟨T.map (mergeRow keys (dfColumns S) S) ++
        S.filter (fun s => !(T.any (fun t => rowMatches keys t s))), pb⟩) ∧
    (∀ t s : Record, rowMatches keys t s = true ↔ ∀ k ∈ keys, getCol t k = getCol s k) ∧
    (∀ t ∈ T, S.find? (fun s => rowMatches keys t s) = none →
      mergeRow keys (dfColumns S) S t = t) ∧
    (∀ t ∈ T, ∀ s : Record, S.find? (fun s => rowMatches keys t s) = some s →
      hashDiffers t s = false → mergeRow keys (dfColumns S) S t = t) ∧
    (∀ t ∈ T, ∀ s : Record, S.find? (fun s => rowMatches keys t s) = some s →
      hashDiffers t s = true → ∀ k : String,
        getCol (mergeRow keys (dfColumns S) S t) k =
          if (dfColumns S).contains k then getCol s k else getCol t k) ∧
    (∀ s ∈ S, (∀ t ∈ T, rowMatches keys t s = false) →
      s ∈ T.map (mergeRow keys (dfColumns S) S) ++
        S.filter (fun s => !(T.any (fun t => rowMatches keys t s)))) := by
  refine ⟨rfl, ?_, ?_, ?_, ?_, ?_⟩
  · intro t s
    simp [rowMatches, List.all_eq_true]
  · intro t _ hfind
    unfold mergeRow
    rw [hfind]
  · intro t _ s hfind hsame
    unfold mergeRow
    rw [hfind]
    show (if hashDiffers t s = true then applyUpdates t s (dfColumns S) else t) = t
    rw [hsame]
    simp
  · intro t _ s hfind hdiff k
    unfold mergeRow
    rw [hfind]
    show getCol (if hashDiffers t s = true then applyUpdates t s (dfColumns S) else t) k = _
    rw [hdiff]
    simp only [if_true]
    exact getCol_applyUpdates t s (dfColumns S) k
  · intro s hs hnomatch
    apply List.mem_append_right
    rw [List.mem_filter]
    refine ⟨hs, ?_⟩
    simp only [Bool.not_eq_true']
    rw [List.any_eq_false]
    intro t ht
    simp [hnomatch t ht]

/-- Witness for C2: a one-row table and a one-row batch sharing the key but
with differing stored hashes; the merged row takes the source's values on
the source columns. -/
theorem c2_merge_row_semantics_witness :
    ([[("ID", Value.int 1), ("v", Value.int 20), ("content_hash", Value.str "h2")]] :
        List Record).find?
      (fun s => rowMatches ["ID"]
        [("ID", Value.int 1), ("v", Value.int 10), ("content_hash", Value.str "h1")] s) =
      some [("ID", Value.int 1), ("v", Value.int 20), ("content_hash", Value.str "h2")] ∧
    getCol (mergeRow ["ID"]
        (dfColumns [[("ID", Value.int 1), ("v", Value.int 20),
          ("content_hash", Value.str "h2")]])
        [[("ID", Value.int 1), ("v", Value.int 20), ("content_hash", Value.str "h2")]]
        [("ID", Value.int 1), ("v", Value.int 10), ("content_hash", Value.str "h1")]) "v" =
      (if (dfColumns [[("ID", Value.int 1), ("v", Value.int 20),
          ("content_hash", Value.str "h2")]]).contains "v"
       then getCol [("ID", Value.int 1), ("v", Value.int 20),
          ("content_hash", Value.str "h2")] "v"
       else getCol [("ID", Value.int 1), ("v", Value.int 10),
          ("content_hash", Value.str "h1")] "v") := by
  refine ⟨by decide, ?_⟩
  exact (c2_merge_row_semantics
      [[("ID", Value.int 1), ("v", Value.int 10), ("content_hash", Value.str "h1")]] none
      [[("ID", Value.int 1), ("v", Value.int 20), ("content_hash", Value.str "h2")]]
      ["ID"]).2.2.2.2.1
    [("ID", Value.int 1), ("v", Value.int 10), ("content_hash", Value.str "h1")]
    (by decide)
    [("ID", Value.int 1), ("v", Value.int 20), ("content_hash", Value.str "h2")]
    (by decide) (by decide) "v"

/-! ### Idempotence machinery for Claim C1 -/

theorem rowMatches_iff_forall (keys : List String) (t s : Record) :
    rowMatches keys t s = true ↔ ∀ k ∈ keys, getCol t k = getCol s k := by
  simp [rowMatches, List.all_eq_true]

theorem stamped_tuples_eq (df : List Record) (keys : List String)
    (hts : "ingestion_timestamp" ∉ keys) (τ τ' : String) :
    (df.map (stampRow τ)).map (keyTuple keys) =
      (df.map (stampRow τ')).map (keyTuple keys) := by
  rw [List.map_map, List.map_map]
  apply List.map_congr_left
  intro r _
  simp only [Function.comp_apply]
  exact keyTuple_stampRow keys hts r τ τ'

theorem allNullCol_stamped_hash (df : List Record) (τ : String) (h : df ≠ []) :
    allNullCol (df.map (stampRow τ)) "content_hash" = false := by
  obtain ⟨r, rest, rfl⟩ := List.exists_cons_of_ne_nil h
  unfold allNullCol
  rw [List.map_cons, List.all_cons, getCol_stampRow_hash]
  simp [isNullV]

theorem keyTuple_widenRow (dfS : List Record) (keys : List String) (r : Record)
    (hkeys : ∀ k ∈ keys, allNullCol dfS k = false) :
    keyTuple keys (widenRow dfS r) = keyTuple keys r := by
  unfold keyTuple
  apply List.map_congr_left
  intro k hk
  exact getCol_widenRow_notAllNull dfS r k (hkeys k hk)

theorem mergeRow_unmatched (keys upd : List String) (S : List Record) (t : Record)
    (hfind : S.find? (fun s => rowMatches keys t s) = none) :
    mergeRow keys upd S t = t := by
  unfold mergeRow
  rw [hfind]

theorem mergeRow_matched_props (keys upd : List String) (S : List Record) (t s2 : Record)
    (hfind : S.find? (fun s => rowMatches keys t s) = some s2)
    (hch : upd.contains "content_hash" = true) :
    keyTuple keys (mergeRow keys upd S t) = keyTuple keys s2 ∧
    getCol (mergeRow keys upd S t) "content_hash" = getCol s2 "content_hash" := by
  have hm : rowMatches keys t s2 = true := by simpa using List.find?_some hfind
  have hpt := (rowMatches_iff_forall keys t s2).mp hm
  unfold mergeRow
  rw [hfind]
  by_cases hd : hashDiffers t s2 = true
  · show keyTuple keys (if hashDiffers t s2 = true then applyUpdates t s2 upd else t) =
        keyTuple keys s2 ∧
      getCol (if hashDiffers t s2 = true then applyUpdates t s2 upd else t) "content_hash" =
        getCol s2 "content_hash"
    rw [if_pos hd]
    constructor
    · unfold keyTuple
      apply List.map_congr_left
      intro k hk
      rw [getCol_applyUpdates]
      by_cases hu : upd.contains k = true
      · rw [if_pos hu]
      · rw [if_neg hu]
        exact hpt k hk
    · rw [getCol_applyUpdates, if_pos hch]
  · show keyTuple keys (if hashDiffers t s2 = true then applyUpdates t s2 upd else t) =
        keyTuple keys s2 ∧
      getCol (if hashDiffers t s2 = true then applyUpdates t s2 upd else t) "content_hash" =
        getCol s2 "content_hash"
    rw [if_neg hd]
    refine ⟨(rowMatches_iff_keyTuple keys t s2).mp hm, ?_⟩
    exact (hashDiffers_eq_false_iff t s2).mp (by simpa using hd)

theorem selfMerge_noop (T S : List Record) (keys updCols : List String)
    (hA : ∀ u ∈ T, (∃ s ∈ S, keyTuple keys u = keyTuple keys s ∧
        getCol u "content_hash" = getCol s "content_hash") ∨
      (∀ s ∈ S, keyTuple keys u ≠ keyTuple keys s))
    (hB : ∀ s ∈ S, ∃ u ∈ T, keyTuple keys u = keyTuple keys s)
    (hC : (S.map (keyTuple keys)).Nodup) :
    deltaMergeExec T S keys updCols = ⟨T, 0, 0⟩ := by
  apply deltaMergeExec_noop
  · intro s hs
    obtain ⟨u, hu, he⟩ := hB s hs
    exact ⟨u, hu, (rowMatches_iff_keyTuple keys u s).mpr he⟩
  · intro t ht s hs hm
    have htuple : keyTuple keys t = keyTuple keys s := (rowMatches_iff_keyTuple _ _ _).mp hm
    rcases hA t ht with ⟨s2, hs2, he2, hh⟩ | hnone
    · have hss : s = s2 := by
        apply List.inj_on_of_nodup_map hC hs hs2
        rw [← htuple]
        exact he2
      rw [hashDiffers_eq_false_iff, hss]
      exact hh
    · exact absurd htuple (hnone s hs)

theorem create_selfmerge (df : List Record) (keys : List String) (τ₁ τ₂ : String)
    (hts : "ingestion_timestamp" ∉ keys)
    (hkeys : ∀ k ∈ keys, allNullCol (df.map (stampRow τ₁)) k = false) :
    (∀ u ∈ widenDf (df.map (stampRow τ₁)),
      ∃ s ∈ df.map (stampRow τ₂), keyTuple keys u = keyTuple keys s ∧
        getCol u "content_hash" = getCol s "content_hash") ∧
    (∀ s ∈ df.map (stampRow τ₂), ∃ u ∈ widenDf (df.map (stampRow τ₁)),
      keyTuple keys u = keyTuple keys s) := by
  constructor
  · intro u hu
    rw [widenDf_eq_map] at hu
    obtain ⟨y, hy, rfl⟩ := List.mem_map.mp hu
    obtain ⟨r, hr, rfl⟩ := List.mem_map.mp hy
    refine ⟨stampRow τ₂ r, List.mem_map_of_mem _ hr, ?_, ?_⟩
    · rw [keyTuple_widenRow _ keys _ hkeys]
      exact keyTuple_stampRow keys hts r τ₁ τ₂
    · have hne : df ≠ [] := List.ne_nil_of_mem hr
      rw [getCol_widenRow_notAllNull _ _ _ (allNullCol_stamped_hash df τ₁ hne)]
      rw [getCol_stampRow_hash, getCol_stampRow_hash]
  · intro s hs
    obtain ⟨r, hr, rfl⟩ := List.mem_map.mp hs
    refine ⟨widenRow (df.map (stampRow τ₁)) (stampRow τ₁ r), ?_, ?_⟩
    · rw [widenDf_eq_map]
      exact List.mem_map_of_mem _ (List.mem_map_of_mem _ hr)
    · rw [keyTuple_widenRow _ keys _ hkeys]
      exact keyTuple_stampRow keys hts r τ₁ τ₂

theorem existing_selfmerge (T0 df : List Record) (keys : List String) (τ₁ τ₂ : String)
    (hts : "ingestion_timestamp" ∉ keys) :
    (∀ u ∈ T0.map (mergeRow keys (dfColumns (df.map (stampRow τ₁))) (df.map (stampRow τ₁))) ++
        (df.map (stampRow τ₁)).filter
          (fun s => !(T0.any (fun t => rowMatches keys t s))),
      (∃ s ∈ df.map (stampRow τ₂), keyTuple keys u = keyTuple keys s ∧
        getCol u "content_hash" = getCol s "content_hash") ∨
      (∀ s ∈ df.map (stampRow τ₂), keyTuple keys u ≠ keyTuple keys s)) ∧
    (∀ s ∈ df.map (stampRow τ₂),
      ∃ u ∈ T0.map (mergeRow keys (dfColumns (df.map (stampRow τ₁))) (df.map (stampRow τ₁))) ++
        (df.map (stampRow τ₁)).filter
          (fun s => !(T0.any (fun t => rowMatches keys t s))),
      keyTuple keys u = keyTuple keys s) := by
  constructor
  · intro u hu
    rcases List.mem_append.mp hu with hu1 | hu2
    · obtain ⟨t, ht, rfl⟩ := List.mem_map.mp hu1
      cases hf : (df.map (stampRow τ₁)).find? (fun s => rowMatches keys t s) with
      | none =>
        rw [mergeRow_unmatched _ _ _ _ hf]
        refine .inr ?_
        intro s hs heq
        obtain ⟨r, hr, rfl⟩ := List.mem_map.mp hs
        have h1 : keyTuple keys t = keyTuple keys (stampRow τ₁ r) :=
          heq.trans (keyTuple_stampRow keys hts r τ₂ τ₁)
        have hm : rowMatches keys t (stampRow τ₁ r) = true :=
          (rowMatches_iff_keyTuple keys t _).mpr h1
        exact List.find?_eq_none.mp hf (stampRow τ₁ r) (List.mem_map_of_mem _ hr)
          (by simpa using hm)
      | some s2 =>
        obtain ⟨r2, hr2, rfl⟩ := List.mem_map.mp (List.mem_of_find?_eq_some hf)
        have hch : (dfColumns (df.map (stampRow τ₁))).contains "content_hash" = true :=
          List.elem_eq_true_of_mem (hash_mem_dfColumns_stamped df τ₁ r2 hr2)
        obtain ⟨hmt, hmh⟩ := mergeRow_matched_props keys _ _ t _ hf hch
        refine .inl ⟨stampRow τ₂ r2, List.mem_map_of_mem _ hr2, ?_, ?_⟩
        · exact hmt.trans (keyTuple_stampRow keys hts r2 τ₁ τ₂)
        · rw [hmh, getCol_stampRow_hash, getCol_stampRow_hash]
    · have hu3 := (List.mem_filter.mp hu2).1
      obtain ⟨r, hr, rfl⟩ := List.mem_map.mp hu3
      refine .inl ⟨stampRow τ₂ r, List.mem_map_of_mem _ hr, ?_, ?_⟩
      · exact keyTuple_stampRow keys hts r τ₁ τ₂
      · rw [getCol_stampRow_hash, getCol_stampRow_hash]
  · intro s hs
    obtain ⟨r, hr, rfl⟩ := List.mem_map.mp hs
    by_cases hany : T0.any (fun t => rowMatches keys t (stampRow τ₁ r)) = true
    · obtain ⟨t, ht, hm⟩ := List.any_eq_true.mp hany
      have hsome : ∃ s2, (df.map (stampRow τ₁)).find? (fun s => rowMatches keys t s) = some s2 := by
        cases hf : (df.map (stampRow τ₁)).find? (fun s => rowMatches keys t s) with
        | none =>
          exact absurd (by simpa using hm)
            (List.find?_eq_none.mp hf (stampRow τ₁ r) (List.mem_map_of_mem _ hr))
        | some s2 => exact ⟨s2, rfl⟩
      obtain ⟨s2, hf⟩ := hsome
      obtain ⟨r2, hr2, rfl⟩ := List.mem_map.mp (List.mem_of_find?_eq_some hf)
      have hch : (dfColumns (df.map (stampRow τ₁))).contains "content_hash" = true :=
        List.elem_eq_true_of_mem (hash_mem_dfColumns_stamped df τ₁ r2 hr2)
      obtain ⟨hmt, _⟩ := mergeRow_matched_props keys _ _ t _ hf hch
      have hm2 : rowMatches keys t (stampRow τ₁ r2) = true := by
        simpa using List.find?_some hf
      have h1 : keyTuple keys t = keyTuple keys (stampRow τ₁ r2) :=
        (rowMatches_iff_keyTuple _ _ _).mp hm2
      have h2 : keyTuple keys t = keyTuple keys (stampRow τ₁ r) :=
        (rowMatches_iff_keyTuple _ _ _).mp (by simpa using hm)
      refine ⟨mergeRow keys (dfColumns (df.map (stampRow τ₁))) (df.map (stampRow τ₁)) t,
        List.mem_append_left _ (List.mem_map_of_mem _ ht), ?_⟩
      exact hmt.trans (h1.symm.trans (h2.trans (keyTuple_stampRow keys hts r τ₁ τ₂)))
    · refine ⟨stampRow τ₁ r, List.mem_append_right _ ?_, keyTuple_stampRow keys hts r τ₁ τ₂⟩
      rw [List.mem_filter]
      refine ⟨List.mem_map_of_mem _ hr, ?_⟩
      simp only [Bool.not_eq_true']
      simpa using hany

/-- Claim C1: for a batch whose merge-key tuples are unique (and whose merge
keys are data columns: not the `ingestion_timestamp` column, and not columns
that are entirely null in the stamped batch), merging via `save_to_delta` in
merge mode and then merging the same batch again leaves the table content
identical to the state after the first merge, and the second merge updates
zero rows and inserts zero rows — even though the second stamping assigns a
fresh `ingestion_timestamp`, because the content hash excludes it and so the
matched-update predicate is false on every matched row. -/
theorem c1_remerge_idempotent (t0 : Option TableData) (df : List Record)
    (keys : List String) (pb : Option (List String)) (τ₁ τ₂ : String)
    (hts : "ingestion_timestamp" ∉ keys)
    (hnodup : ((add_metadata_columns df [] τ₁).map (keyTuple keys)).Nodup)
    (hkeys : df = [] ∨ ∀ k ∈ keys, allNullCol (add_metadata_columns df [] τ₁) k = false) :
    ((save_to_delta df
        (save_to_delta df t0 .merge keys true pb τ₁).1 .merge keys true pb τ₂).1 =
      (save_to_delta df t0 .merge keys true pb τ₁).1) ∧
    (∀ T₁ : TableData, (save_to_delta df t0 .merge keys true pb τ₁).1 = some T₁ →
      (deltaMergeExec T₁.rows (add_metadata_columns df [] τ₂) keys
        (dfColumns (add_metadata_columns df [] τ₂))).num_updated = 0 ∧
      (deltaMergeExec T₁.rows (add_metadata_columns df [] τ₂) keys
        (dfColumns (add_metadata_columns df [] τ₂))).num_inserted = 0) := by
  have hsave : ∀ (st : Option TableData) (τ : String),
      (save_to_delta df st .merge keys true pb τ).1 =
        (_execute_merge (df.map (stampRow τ)) st keys pb).1 := by
    intro st τ
    show (_execute_merge (add_metadata_columns df [] τ) st keys pb).1 = _
    rw [add_metadata_eq_map]
  have hnodup2 : ((df.map (stampRow τ₂)).map (keyTuple keys)).Nodup := by
    have h := hnodup
    rw [add_metadata_eq_map, stamped_tuples_eq df keys hts τ₁ τ₂] at h
    exact h
  cases t0 with
  | none =>
    have hr1 : (save_to_delta df none .merge keys true pb τ₁).1 =
        some ⟨widenDf (df.map (stampRow τ₁)), pb⟩ := hsave none τ₁
    have hnoop : deltaMergeExec (widenDf (df.map (stampRow τ₁))) (df.map (stampRow τ₂)) keys
        (dfColumns (df.map (stampRow τ₂))) =
        ⟨widenDf (df.map (stampRow τ₁)), 0, 0⟩ := by
      rcases hkeys with hdf | hk
      · subst hdf
        rfl
      · have hk2 : ∀ k ∈ keys, allNullCol (df.map (stampRow τ₁)) k = false := by
          intro k hkk
          have h := hk k hkk
          rwa [add_metadata_eq_map] at h
        have hcs := create_selfmerge df keys τ₁ τ₂ hts hk2
        exact selfMerge_noop _ _ _ _ (fun u hu => .inl (hcs.1 u hu)) hcs.2 hnodup2
    constructor
    · rw [hr1, hsave (some ⟨widenDf (df.map (stampRow τ₁)), pb⟩) τ₂]
      show (some ⟨(deltaMergeExec (widenDf (df.map (stampRow τ₁))) (df.map (stampRow τ₂)) keys
          (dfColumns (df.map (stampRow τ₂)))).rows, pb⟩ : Option TableData) =
        some ⟨widenDf (df.map (stampRow τ₁)), pb⟩
      rw [hnoop]
    · intro T₁ hT₁
      rw [hr1] at hT₁
      have hT₂ := Option.some.inj hT₁
      subst hT₂
      simp only [add_metadata_eq_map]
      constructor
      · show (deltaMergeExec (widenDf (df.map (stampRow τ₁))) (df.map (stampRow τ₂)) keys
          (dfColumns (df.map (stampRow τ₂)))).num_updated = 0
        rw [hnoop]
      · show (deltaMergeExec (widenDf (df.map (stampRow τ₁))) (df.map (stampRow τ₂)) keys
          (dfColumns (df.map (stampRow τ₂)))).num_inserted = 0
        rw [hnoop]
  | some T0 =>
    have hr1 : (save_to_delta df (some T0) .merge keys true pb τ₁).1 =
        some ⟨(deltaMergeExec T0.rows (df.map (stampRow τ₁)) keys
          (dfColumns (df.map (stampRow τ₁)))).rows, T0.partitionBy⟩ := hsave (some T0) τ₁
    have hes := existing_selfmerge T0.rows df keys τ₁ τ₂ hts
    have hnoop : deltaMergeExec ((deltaMergeExec T0.rows (df.map (stampRow τ₁)) keys
          (dfColumns (df.map (stampRow τ₁)))).rows) (df.map (stampRow τ₂)) keys
        (dfColumns (df.map (stampRow τ₂))) =
        ⟨(deltaMergeExec T0.rows (df.map (stampRow τ₁)) keys
          (dfColumns (df.map (stampRow τ₁)))).rows, 0, 0⟩ :=
      selfMerge_noop _ _ _ _ hes.1 hes.2 hnodup2
    constructor
    · rw [hr1, hsave (some ⟨(deltaMergeExec T0.rows (df.map (stampRow τ₁)) keys
        (dfColumns (df.map (stampRow τ₁)))).rows, T0.partitionBy⟩) τ₂]
      show (some ⟨(deltaMergeExec ((deltaMergeExec T0.rows (df.map (stampRow τ₁)) keys
          (dfColumns (df.map (stampRow τ₁)))).rows) (df.map (stampRow τ₂)) keys
          (dfColumns (df.map (stampRow τ₂)))).rows, T0.partitionBy⟩ : Option TableData) =
        some ⟨(deltaMergeExec T0.rows (df.map (stampRow τ₁)) keys
          (dfColumns (df.map (stampRow τ₁)))).rows, T0.partitionBy⟩
      rw [hnoop]
    · intro T₁ hT₁
      rw [hr1] at hT₁
      have hT₂ := Option.some.inj hT₁
      subst hT₂
      simp only [add_metadata_eq_map]
      constructor
      · show (deltaMergeExec ((deltaMergeExec T0.rows (df.map (stampRow τ₁)) keys
          (dfColumns (df.map (stampRow τ₁)))).rows) (df.map (stampRow τ₂)) keys
          (dfColumns (df.map (stampRow τ₂)))).num_updated = 0
        rw [hnoop]
      · show (deltaMergeExec ((deltaMergeExec T0.rows (df.map (stampRow τ₁)) keys
          (dfColumns (df.map (stampRow τ₁)))).rows) (df.map (stampRow τ₂)) keys
          (dfColumns (df.map (stampRow τ₂)))).num_inserted = 0
        rw [hnoop]

/-- Witness for C1: a two-row batch with distinct `ID` merge keys, created
into a fresh table and merged again at a later stamping time. -/
theorem c1_remerge_idempotent_witness :
    ("ingestion_timestamp" ∉ (["ID"] : List String)) ∧
    ((save_to_delta [[("ID", Value.int 1)], [("ID", Value.int 2)]]
        (save_to_delta [[("ID", Value.int 1)], [("ID", Value.int 2)]] none .merge ["ID"] true
          none "t1").1 .merge ["ID"] true none "t2").1 =
      (save_to_delta [[("ID", Value.int 1)], [("ID", Value.int 2)]] none .merge ["ID"] true
        none "t1").1) := by
  have h1 : keyTuple ["ID"] (stampRow "t1" [("ID", Value.int 1)]) = [Value.int 1] := by
    unfold keyTuple
    rw [List.map_cons, List.map_nil, getCol_stampRow_ne _ _ _ (by decide) (by decide)]
    rfl
  have h2 : keyTuple ["ID"] (stampRow "t1" [("ID", Value.int 2)]) = [Value.int 2] := by
    unfold keyTuple
    rw [List.map_cons, List.map_nil, getCol_stampRow_ne _ _ _ (by decide) (by decide)]
    rfl
  have hnodup : ((add_metadata_columns [[("ID", Value.int 1)], [("ID", Value.int 2)]] []
      "t1").map (keyTuple ["ID"])).Nodup := by
    rw [add_metadata_eq_map]
    simp only [List.map_cons, List.map_nil]
    rw [h1, h2]
    decide
  have hkeys : ∀ k ∈ (["ID"] : List String),
      allNullCol (add_metadata_columns [[("ID", Value.int 1)], [("ID", Value.int 2)]] []
        "t1") k = false := by
    intro k hk
    have hk2 : k = "ID" := by simpa using hk
    subst hk2
    rw [add_metadata_eq_map]
    show ([stampRow "t1" [("ID", Value.int 1)],
      stampRow "t1" [("ID", Value.int 2)]].all
        (fun r => isNullV (getCol r "ID"))) = false
    rw [List.all_cons, getCol_stampRow_ne _ _ _ (by decide) (by decide)]
    rfl
  refine ⟨by decide, ?_⟩
  exact (c1_remerge_idempotent none [[("ID", Value.int 1)], [("ID", Value.int 2)]] ["ID"] none
    "t1" "t2" (by decide) hnodup (Or.inr hkeys)).1
